import Mathlib

/-!
Verification of the reconciliation engine of `gh-project-helper`.

The Go code is shallowly embedded as pure Lean functions.  A capability
implementation (`GitHubClient`) is a record of pure state-passing
functions (state type `σ` models whatever internal state a real or mock
client carries); fallible remote operations return `Except String`.
The engine (`ApplyPlan` and its helper loops, translated from
`engine.ApplyPlan`) additionally produces an instrumentation trace: a
`List Call` recording, in order, every capability method invocation
together with the result the capability returned for it.  Go strings are
modelled as Lean `String`s; the two repository-splitting routines, which
the source performs rune by rune, are modelled on `List Char`
(`String.data`).
-/

/-- One milestone entry of a plan (`types.Milestone`). -/
structure Milestone where
  title : String
  dueOn : String
  description : String
  deriving DecidableEq, Repr

/-- One child issue of an epic (`types.Issue`). -/
structure Issue where
  title : String
  body : String
  labels : List String
  deriving DecidableEq, Repr

/-- One epic of a plan (`types.Epic`). -/
structure Epic where
  title : String
  body : String
  milestone : String
  status : String
  labels : List String
  assignees : List String
  children : List Issue
  deriving DecidableEq, Repr

/-- A declarative plan (`types.Plan`). -/
structure Plan where
  project : String
  repository : String
  milestones : List Milestone
  epics : List Epic
  deriving DecidableEq, Repr

/-- Run options of the engine (`engine.Options`). -/
structure Options where
  dryRun : Bool
  deriving DecidableEq, Repr

/-- The result report of a run (`engine.Report`). -/
structure Report where
  milestonesCreated : Nat
  epicsCreated : Nat
  epicsSkipped : Nat
  issuesCreated : Nat
  issuesSkipped : Nat
  epicURLs : List String
  deriving DecidableEq, Repr

/-- The zero-valued report `engine.ApplyPlan` starts from (`&Report{}`). -/
def Report.empty : Report := ⟨0, 0, 0, 0, 0, []⟩

/-- The input of the `createIssue` mutation (`githubv4.CreateIssueInput`
as the engine fills it: children leave milestone and assignees unset). -/
structure CreateIssueInput where
  repositoryID : String
  title : String
  body : String
  milestoneID : Option String
  labelIDs : List String
  assigneeIDs : Option (List String)
  deriving DecidableEq, Repr

/-- The fields of a created issue the engine consumes
(`CreateIssueMutation`: node id, number, url). -/
structure CreatedIssue where
  id : String
  number : Int
  url : String
  deriving DecidableEq, Repr

/-- A capability implementation (`engine.GitHubClient` interface): each
method is a pure function taking the client state and returning a
fallible result together with the successor state. -/
structure GitHubClient (σ : Type) where
  getRepositoryID : σ → String → String → Except String String × σ
  getProjectV2ID : σ → String → String → Except String String × σ
  getProjectV2StatusFieldOptions : σ → String → Except String (String × List (String × String)) × σ
  getOrCreateMilestone : σ → String → String → String → String → String → Except String Int × σ
  getMilestoneID : σ → String → String → Int → Except String String × σ
  findIssueByTitle : σ → String → String → String → Except String (Int × String) × σ
  getOrCreateLabel : σ → String → String → String → Except String String × σ
  getUserID : σ → String → Except String String × σ
  createIssue : σ → CreateIssueInput → Except String CreatedIssue × σ
  addIssueToProjectV2 : σ → String → String → Except String String × σ
  updateProjectV2ItemStatus : σ → String → String → String → String → Except String Unit × σ

/-- Result values of capability methods are comparable (used only to
evaluate concrete runs in witnesses). -/
instance {ε α : Type} [DecidableEq ε] [DecidableEq α] : DecidableEq (Except ε α) :=
  fun a b =>
    match a, b with
    | .ok x, .ok y => if h : x = y then .isTrue (by rw [h]) else .isFalse (by simp [h])
    | .error x, .error y => if h : x = y then .isTrue (by rw [h]) else .isFalse (by simp [h])
    | .ok _, .error _ => .isFalse (by simp)
    | .error _, .ok _ => .isFalse (by simp)

/-- One recorded capability invocation: the method, its arguments, and
the result the capability returned. -/
inductive Call where
  | getRepositoryID (owner name : String) (result : Except String String)
  | getProjectV2ID (owner title : String) (result : Except String String)
  | getProjectV2StatusFieldOptions (projectID : String)
      (result : Except String (String × List (String × String)))
  | getOrCreateMilestone (owner repo title description dueOn : String)
      (result : Except String Int)
  | getMilestoneID (owner name : String) (number : Int) (result : Except String String)
  | findIssueByTitle (owner repo title : String) (result : Except String (Int × String))
  | getOrCreateLabel (owner repo name : String) (result : Except String String)
  | getUserID (login : String) (result : Except String String)
  | createIssue (input : CreateIssueInput) (result : Except String CreatedIssue)
  | addIssueToProjectV2 (projectID contentID : String) (result : Except String String)
  | updateProjectV2ItemStatus (projectID itemID fieldID optionID : String)
      (result : Except String Unit)
  deriving DecidableEq, Repr

/-- Is this trace entry one of the five mutating / linking / status
methods (`GetOrCreateMilestone`, `GetOrCreateLabel`, `CreateIssue`,
`AddIssueToProjectV2`, `UpdateProjectV2ItemStatus`)? -/
def Call.isMutating : Call → Bool
  | .getOrCreateMilestone _ _ _ _ _ _ => true
  | .getOrCreateLabel _ _ _ _ => true
  | .createIssue _ _ => true
  | .addIssueToProjectV2 _ _ _ => true
  | .updateProjectV2ItemStatus _ _ _ _ _ => true
  | _ => false

/-- Is this trace entry a `CreateIssue` invocation? -/
def Call.isCreateIssue : Call → Bool
  | .createIssue _ _ => true
  | _ => false

/-- Is this trace entry an `UpdateProjectV2ItemStatus` invocation? -/
def Call.isStatusUpdate : Call → Bool
  | .updateProjectV2ItemStatus _ _ _ _ _ => true
  | _ => false

/-- Is this trace entry the creation of an epic issue?  The engine sets
the assignee-id list only on the epic `CreateIssue` call, never on a
child's, so this field identifies epic creations. -/
def Call.isEpicCreate : Call → Bool
  | .createIssue input _ => input.assigneeIDs.isSome
  | _ => false

/-- Did the capability report an error for this recorded invocation? -/
def Call.isErrorResult : Call → Bool
  | .getRepositoryID _ _ (.error _) => true
  | .getProjectV2ID _ _ (.error _) => true
  | .getProjectV2StatusFieldOptions _ (.error _) => true
  | .getOrCreateMilestone _ _ _ _ _ (.error _) => true
  | .getMilestoneID _ _ _ (.error _) => true
  | .findIssueByTitle _ _ _ (.error _) => true
  | .getOrCreateLabel _ _ _ (.error _) => true
  | .getUserID _ (.error _) => true
  | .createIssue _ (.error _) => true
  | .addIssueToProjectV2 _ _ (.error _) => true
  | .updateProjectV2ItemStatus _ _ _ _ (.error _) => true
  | _ => false

/-- Go `strings.Split(s, "/")` on the rune sequence of `s`: split at
every `'/'`; the result always has one more part than there are
slashes, so `strings.Split("", "/")` is `[""]`. -/
def splitOnSlash : List Char → List (List Char)
  | [] => [[]]
  | ch :: rest =>
    if ch = '/' then [] :: splitOnSlash rest
    else
      match splitOnSlash rest with
      | [] => [[ch]]
      | part :: parts => (ch :: part) :: parts

/-- `commands.splitRepo`: split at the first `'/'` only, returning the
two surrounding pieces, or the whole string as a single part when it
contains no `'/'`. -/
def splitRepo : List Char → List (List Char)
  | [] => [[]]
  | ch :: rest =>
    if ch = '/' then [[], rest]
    else
      match splitRepo rest with
      | [] => [[ch]]
      | part :: parts => (ch :: part) :: parts

/-- Go map lookup `m[k]` for the maps the engine consumes, modelled as
association lists searched front to back (`syncMilestones` below conses
newer bindings at the front, matching map-assignment overwrite). -/
def lookupAssoc (m : List (String × String)) (k : String) : Option String :=
  match m with
  | [] => none
  | (k₀, v) :: rest => if k₀ = k then some v else lookupAssoc rest k

/-- One tasklist line `fmt.Sprintf("- [ ] #%d", n)`. -/
def taskLine (n : Int) : String := "- [ ] #" ++ toString n

/-- The per-run context the engine resolves in Phase 0 and threads
through both loops. -/
structure Env where
  repoID : String
  projectID : String
  statusFieldID : String
  statusOptions : List (String × String)
  owner : String
  repo : String
  deriving DecidableEq, Repr

/-- The best-effort status update on the already-exists path:
`_ = client.UpdateProjectV2ItemStatus(...)` guarded by
`epic.Status != ""` and a successful option lookup.  The call is made
(and recorded) but its result is discarded. -/
def setStatusSwallow {σ : Type} (c : GitHubClient σ) (env : Env) (st itemID : String)
    (s : σ) : σ × List Call :=
  if st = "" then (s, [])
  else
    match lookupAssoc env.statusOptions st with
    | none => (s, [])
    | some optID =>
      match c.updateProjectV2ItemStatus s env.projectID itemID env.statusFieldID optID with
      | (r, s₁) =>
        (s₁, [Call.updateProjectV2ItemStatus env.projectID itemID env.statusFieldID optID r])

/-- The status update on the creation path, with the same guards, but
propagating a failure (wrapped with the given message prefix). -/
def setStatusPropagate {σ : Type} (c : GitHubClient σ) (env : Env) (st itemID msg : String)
    (s : σ) : Except String Unit × σ × List Call :=
  if st = "" then (.ok (), s, [])
  else
    match lookupAssoc env.statusOptions st with
    | none => (.ok (), s, [])
    | some optID =>
      match c.updateProjectV2ItemStatus s env.projectID itemID env.statusFieldID optID with
      | (.error e, s₁) =>
        (.error (msg ++ e), s₁,
          [Call.updateProjectV2ItemStatus env.projectID itemID env.statusFieldID optID (.error e)])
      | (.ok u, s₁) =>
        (.ok (), s₁,
          [Call.updateProjectV2ItemStatus env.projectID itemID env.statusFieldID optID (.ok u)])

/-- The label-resolution loops of `ApplyPlan`: for each name in order,
`GetOrCreateLabel`, collecting the ids; the first failure aborts. -/
def resolveLabels {σ : Type} (c : GitHubClient σ) (owner repo : String) :
    List String → σ → Except String (List String) × σ × List Call
  | [], s => (.ok [], s, [])
  | name :: rest, s =>
    match c.getOrCreateLabel s owner repo name with
    | (.error e, s₁) =>
      (.error ("failed to get or create label " ++ name ++ ": " ++ e), s₁,
        [Call.getOrCreateLabel owner repo name (.error e)])
    | (.ok lid, s₁) =>
      match resolveLabels c owner repo rest s₁ with
      | (.error e, s₂, tr) =>
        (.error e, s₂, Call.getOrCreateLabel owner repo name (.ok lid) :: tr)
      | (.ok lids, s₂, tr) =>
        (.ok (lid :: lids), s₂, Call.getOrCreateLabel owner repo name (.ok lid) :: tr)

/-- The assignee-resolution loop of `ApplyPlan`: `GetUserID` per login. -/
def resolveAssignees {σ : Type} (c : GitHubClient σ) :
    List String → σ → Except String (List String) × σ × List Call
  | [], s => (.ok [], s, [])
  | login :: rest, s =>
    match c.getUserID s login with
    | (.error e, s₁) =>
      (.error ("failed to get user id for " ++ login ++ ": " ++ e), s₁,
        [Call.getUserID login (.error e)])
    | (.ok uid, s₁) =>
      match resolveAssignees c rest s₁ with
      | (.error e, s₂, tr) =>
        (.error e, s₂, Call.getUserID login (.ok uid) :: tr)
      | (.ok uids, s₂, tr) =>
        (.ok (uid :: uids), s₂, Call.getUserID login (.ok uid) :: tr)

/-- Step A of the per-epic loop (`ApplyPlan` lines 129-193): process the
epic's children in order, accumulating tasklist lines and counters.  A
found child is skipped (board-add still ensured, status best-effort); a
missing child is created with its labels, board-added, and status-set
with failures propagated. -/
def processChildren {σ : Type} (c : GitHubClient σ) (env : Env) (st : String) :
    List Issue → List String → Report → σ →
      Except String (List String × Report) × σ × List Call
  | [], lines, rep, s => (.ok (lines, rep), s, [])
  | child :: rest, lines, rep, s =>
    match c.findIssueByTitle s env.owner env.repo child.title with
    | (.error e, s₁) =>
      (.error ("failed to check for existing issue \"" ++ child.title ++ "\": " ++ e), s₁,
        [Call.findIssueByTitle env.owner env.repo child.title (.error e)])
    | (.ok (num, nodeID), s₁) =>
      let fc := Call.findIssueByTitle env.owner env.repo child.title (.ok (num, nodeID))
      if 0 < num then
        match c.addIssueToProjectV2 s₁ env.projectID nodeID with
        | (.error e, s₂) =>
          (.error ("failed to add existing child issue to project: " ++ e), s₂,
            [fc, Call.addIssueToProjectV2 env.projectID nodeID (.error e)])
        | (.ok itemID, s₂) =>
          match setStatusSwallow c env st itemID s₂ with
          | (s₃, trSt) =>
            match processChildren c env st rest (lines ++ [taskLine num])
                { rep with issuesSkipped := rep.issuesSkipped + 1 } s₃ with
            | (r, s₄, tr) =>
              (r, s₄, fc :: Call.addIssueToProjectV2 env.projectID nodeID (.ok itemID)
                :: trSt ++ tr)
      else
        match resolveLabels c env.owner env.repo child.labels s₁ with
        | (.error e, s₂, trL) => (.error e, s₂, fc :: trL)
        | (.ok labelIDs, s₂, trL) =>
          let input : CreateIssueInput :=
            ⟨env.repoID, child.title, child.body, none, labelIDs, none⟩
          match c.createIssue s₂ input with
          | (.error e, s₃) =>
            (.error ("failed to create child issue: " ++ e), s₃,
              fc :: trL ++ [Call.createIssue input (.error e)])
          | (.ok issue, s₃) =>
            match c.addIssueToProjectV2 s₃ env.projectID issue.id with
            | (.error e, s₄) =>
              (.error ("failed to add child issue to project: " ++ e), s₄,
                fc :: trL ++ [Call.createIssue input (.ok issue),
                  Call.addIssueToProjectV2 env.projectID issue.id (.error e)])
            | (.ok itemID, s₄) =>
              match setStatusPropagate c env st itemID
                  "failed to update status for child issue: " s₄ with
              | (.error e, s₅, trSt) =>
                (.error e, s₅,
                  fc :: trL ++ Call.createIssue input (.ok issue)
                    :: Call.addIssueToProjectV2 env.projectID issue.id (.ok itemID) :: trSt)
              | (.ok _, s₅, trSt) =>
                match processChildren c env st rest (lines ++ [taskLine issue.number])
                    { rep with issuesCreated := rep.issuesCreated + 1 } s₅ with
                | (r, s₆, tr) =>
                  (r, s₆,
                    fc :: trL ++ Call.createIssue input (.ok issue)
                      :: Call.addIssueToProjectV2 env.projectID issue.id (.ok itemID)
                      :: trSt ++ tr)

/-- The live body of one iteration of the per-epic loop of `ApplyPlan`
(lines 129-280): children first, then the epic's own idempotency check,
then — when the epic is missing — body composition, label / assignee
resolution, creation, board linkage, and status update. -/
def processEpic {σ : Type} (c : GitHubClient σ) (env : Env)
    (milestones : List (String × String)) (epic : Epic) (rep : Report) (s : σ) :
    Except String Report × σ × List Call :=
  match processChildren c env epic.status epic.children [] rep s with
  | (.error e, s₁, tr₁) => (.error e, s₁, tr₁)
  | (.ok (lines, rep₁), s₁, tr₁) =>
    match c.findIssueByTitle s₁ env.owner env.repo epic.title with
    | (.error e, s₂) =>
      (.error ("failed to check for existing epic \"" ++ epic.title ++ "\": " ++ e), s₂,
        tr₁ ++ [Call.findIssueByTitle env.owner env.repo epic.title (.error e)])
    | (.ok (num, nodeID), s₂) =>
      let fc := Call.findIssueByTitle env.owner env.repo epic.title (.ok (num, nodeID))
      if 0 < num then
        match c.addIssueToProjectV2 s₂ env.projectID nodeID with
        | (.error e, s₃) =>
          (.error ("failed to add existing epic to project: " ++ e), s₃,
            tr₁ ++ [fc, Call.addIssueToProjectV2 env.projectID nodeID (.error e)])
        | (.ok itemID, s₃) =>
          match setStatusSwallow c env epic.status itemID s₃ with
          | (s₄, trSt) =>
            (.ok { rep₁ with epicsSkipped := rep₁.epicsSkipped + 1 }, s₄,
              tr₁ ++ fc :: Call.addIssueToProjectV2 env.projectID nodeID (.ok itemID) :: trSt)
      else
        let epicBody := epic.body ++ "\n\n" ++ String.intercalate "\n" lines
        let milestoneID : Option String :=
          if epic.milestone = "" then none else lookupAssoc milestones epic.milestone
        match resolveLabels c env.owner env.repo epic.labels s₂ with
        | (.error e, s₃, trL) => (.error e, s₃, tr₁ ++ fc :: trL)
        | (.ok labelIDs, s₃, trL) =>
          match resolveAssignees c epic.assignees s₃ with
          | (.error e, s₄, trA) => (.error e, s₄, tr₁ ++ fc :: trL ++ trA)
          | (.ok assigneeIDs, s₄, trA) =>
            let input : CreateIssueInput :=
              ⟨env.repoID, epic.title, epicBody, milestoneID, labelIDs, some assigneeIDs⟩
            match c.createIssue s₄ input with
            | (.error e, s₅) =>
              (.error ("failed to create epic issue: " ++ e), s₅,
                tr₁ ++ fc :: trL ++ trA ++ [Call.createIssue input (.error e)])
            | (.ok issue, s₅) =>
              match c.addIssueToProjectV2 s₅ env.projectID issue.id with
              | (.error e, s₆) =>
                (.error ("failed to add epic issue to project: " ++ e), s₆,
                  tr₁ ++ fc :: trL ++ trA ++ [Call.createIssue input (.ok issue),
                    Call.addIssueToProjectV2 env.projectID issue.id (.error e)])
              | (.ok itemID, s₆) =>
                match setStatusPropagate c env epic.status itemID
                    "failed to update status for epic issue: " s₆ with
                | (.error e, s₇, trSt) =>
                  (.error e, s₇,
                    tr₁ ++ fc :: trL ++ trA ++ Call.createIssue input (.ok issue)
                      :: Call.addIssueToProjectV2 env.projectID issue.id (.ok itemID) :: trSt)
                | (.ok _, s₇, trSt) =>
                  (.ok { rep₁ with epicsCreated := rep₁.epicsCreated + 1, epicURLs := rep₁.epicURLs ++ [issue.url] }, s₇,
                    tr₁ ++ fc :: trL ++ trA ++ Call.createIssue input (.ok issue)
                      :: Call.addIssueToProjectV2 env.projectID issue.id (.ok itemID) :: trSt)

/-- The per-epic loop of `ApplyPlan`.  In dry-run mode each iteration
only prints intended actions (not modelled) and continues. -/
def processEpics {σ : Type} (c : GitHubClient σ) (env : Env)
    (milestones : List (String × String)) (dryRun : Bool) :
    List Epic → Report → σ → Except String Report × σ × List Call
  | [], rep, s => (.ok rep, s, [])
  | epic :: rest, rep, s =>
    if dryRun then processEpics c env milestones dryRun rest rep s
    else
      match processEpic c env milestones epic rep s with
      | (.error e, s₁, tr) => (.error e, s₁, tr)
      | (.ok rep₁, s₁, tr) =>
        match processEpics c env milestones dryRun rest rep₁ s₁ with
        | (r, s₂, tr₁) => (r, s₂, tr ++ tr₁)

/-- Phase 1 of `ApplyPlan` (milestone sync).  Live mode find-or-creates
each milestone, resolves its node id, records the binding (map
assignment modelled by consing, shadowing older bindings), and
unconditionally bumps the synced counter; dry-run only prints. -/
def syncMilestones {σ : Type} (c : GitHubClient σ) (dryRun : Bool) (owner repo : String) :
    List Milestone → List (String × String) → Report → σ →
      Except String (List (String × String) × Report) × σ × List Call
  | [], acc, rep, s => (.ok (acc, rep), s, [])
  | m :: rest, acc, rep, s =>
    if dryRun then syncMilestones c dryRun owner repo rest acc rep s
    else
      match c.getOrCreateMilestone s owner repo m.title m.description m.dueOn with
      | (.error e, s₁) =>
        (.error ("failed to get or create milestone: " ++ e), s₁,
          [Call.getOrCreateMilestone owner repo m.title m.description m.dueOn (.error e)])
      | (.ok num, s₁) =>
        match c.getMilestoneID s₁ owner repo num with
        | (.error e, s₂) =>
          (.error ("failed to get milestone id: " ++ e), s₂,
            [Call.getOrCreateMilestone owner repo m.title m.description m.dueOn (.ok num),
              Call.getMilestoneID owner repo num (.error e)])
        | (.ok mid, s₂) =>
          match syncMilestones c dryRun owner repo rest ((m.title, mid) :: acc)
              { rep with milestonesCreated := rep.milestonesCreated + 1 } s₂ with
          | (r, s₃, tr) =>
            (r, s₃,
              Call.getOrCreateMilestone owner repo m.title m.description m.dueOn (.ok num)
                :: Call.getMilestoneID owner repo num (.ok mid) :: tr)

/-- Phase 0 of `ApplyPlan` (context resolution, lines 68-83): resolve
in turn the repository node id, the project board id, and the status
field with its options; the first failure aborts with a wrapped error. -/
def phase0 {σ : Type} (c : GitHubClient σ) (owner repo project : String) (s : σ) :
    Except String (String × String × String × List (String × String)) × σ × List Call :=
  match c.getRepositoryID s owner repo with
  | (.error e, s₁) =>
    (.error ("failed to get repository id: " ++ e), s₁,
      [Call.getRepositoryID owner repo (.error e)])
  | (.ok repoID, s₁) =>
    match c.getProjectV2ID s₁ owner project with
    | (.error e, s₂) =>
      (.error ("failed to get project id: " ++ e), s₂,
        [Call.getRepositoryID owner repo (.ok repoID),
          Call.getProjectV2ID owner project (.error e)])
    | (.ok projectID, s₂) =>
      match c.getProjectV2StatusFieldOptions s₂ projectID with
      | (.error e, s₃) =>
        (.error ("failed to get project status field options: " ++ e), s₃,
          [Call.getRepositoryID owner repo (.ok repoID),
            Call.getProjectV2ID owner project (.ok projectID),
            Call.getProjectV2StatusFieldOptions projectID (.error e)])
      | (.ok (fieldID, options), s₃) =>
        (.ok (repoID, projectID, fieldID, options), s₃,
          [Call.getRepositoryID owner repo (.ok repoID),
            Call.getProjectV2ID owner project (.ok projectID),
            Call.getProjectV2StatusFieldOptions projectID (.ok (fieldID, options))])

/-- `engine.ApplyPlan`: validate the repository string, resolve the
run context (Phase 0), sync milestones (Phase 1), then converge each
epic (Phase 2).  The result is the outcome, the final client state and
the full invocation trace. -/
def ApplyPlan {σ : Type} (c : GitHubClient σ) (plan : Plan) (opts : Options) (s : σ) :
    Except String Report × σ × List Call :=
  match splitOnSlash plan.repository.data with
  | [ownerChars, repoChars] =>
    let owner := String.mk ownerChars
    let repo := String.mk repoChars
    match phase0 c owner repo plan.project s with
    | (.error e, s₁, tr₀) => (.error e, s₁, tr₀)
    | (.ok (repoID, projectID, fieldID, options), s₁, tr₀) =>
      match syncMilestones c opts.dryRun owner repo plan.milestones [] Report.empty s₁ with
      | (.error e, s₂, tr) => (.error e, s₂, tr₀ ++ tr)
      | (.ok (mmap, rep), s₂, tr) =>
        let env : Env := ⟨repoID, projectID, fieldID, options, owner, repo⟩
        match processEpics c env mmap opts.dryRun plan.epics rep s₂ with
        | (r, s₃, tr₁) => (r, s₃, tr₀ ++ tr ++ tr₁)
  | _ => (.error ("invalid repository format: " ++ plan.repository), s, [])

/-- The total number of children across the plan's epics. -/
def totalChildren (epics : List Epic) : Nat :=
  (epics.map (fun e => e.children.length)).sum

/-- A milestone as the remote listing returns it; the code consumes
only the title (for matching) and the number. -/
structure RemoteMilestone where
  title : String
  number : Int
  deriving DecidableEq, Repr

/-- `github.Client.GetOrCreateMilestone` (pkg/github/client.go lines
138-171).  Its three remote/library collaborators are parameters: the
result of `ListMilestones`, the date parser
(`time.Parse("2006-01-02", dueOn)`, abstracted to return `none`
exactly when the Go parse fails), and `CreateMilestone`.  The listing
is searched for an exact title match first; only when no match exists
is a non-empty `dueOn` parsed and the milestone created. -/
def GetOrCreateMilestone
    (listMilestones : Except String (List RemoteMilestone))
    (parseDate : String → Option Int)
    (createMilestone : String → String → Option Int → Except String RemoteMilestone)
    (title description dueOn : String) : Except String RemoteMilestone :=
  match listMilestones with
  | .error e => .error e
  | .ok ms =>
    match ms.find? (fun m => m.title = title) with
    | some m => .ok m
    | none =>
      if dueOn = "" then createMilestone title description none
      else
        match parseDate dueOn with
        | none => .error ("cannot parse \"" ++ dueOn ++ "\" as \"2006-01-02\"")
        | some t => createMilestone title description (some t)

/-- `ApplyPlan`'s entry check on the repository string:
`len(strings.Split(plan.Repository, "/")) == 2`. -/
def applyRepoOk (repo : List Char) : Bool :=
  (splitOnSlash repo).length == 2

/-- Does `commands.validatePlan` report the "must be in owner/repo
format" error for this repository string?  An empty repository gets the
distinct "repository is required" error instead, never the format
error; otherwise the error fires iff `splitRepo` does not yield exactly
two non-empty parts. -/
def validateRepoFormatError (repo : List Char) : Bool :=
  if repo.isEmpty then false
  else
    match splitRepo repo with
    | [a, b] => a.isEmpty || b.isEmpty
    | _ => true

/-- Specification predicate for C2: `nums` lists, in child-declaration
order, one issue number per child, and for each child the trace `tr`
holds its title lookup, and either that lookup returned the (positive)
number, or a child `CreateIssue` call (no assignees) for that title
returned an issue carrying the number. -/
def ChildWitness (env : Env) (children : List Issue) (nums : List Int) (tr : List Call) : Prop :=
  ∀ i (hc : i < children.length) (hn : i < nums.length),
    (∃ fr, Call.findIssueByTitle env.owner env.repo ((children.get ⟨i, hc⟩).title) fr ∈ tr) ∧
    ((0 < nums.get ⟨i, hn⟩ ∧
        ∃ nid, Call.findIssueByTitle env.owner env.repo ((children.get ⟨i, hc⟩).title)
          (.ok (nums.get ⟨i, hn⟩, nid)) ∈ tr) ∨
      (∃ input ci, Call.createIssue input (.ok ci) ∈ tr ∧
        input.title = (children.get ⟨i, hc⟩).title ∧ input.assigneeIDs = none ∧
        ci.number = nums.get ⟨i, hn⟩))

/-- A fully succeeding capability double (the shape of `mockClient` in
the engine tests): state is the issue counter; nothing pre-exists. -/
def okClient : GitHubClient Nat where
  getRepositoryID := fun s _ _ => (.ok "repo-node-id", s)
  getProjectV2ID := fun s _ _ => (.ok "project-node-id", s)
  getProjectV2StatusFieldOptions := fun s _ =>
    (.ok ("status-field-id", [("Todo", "todo-option-id")]), s)
  getOrCreateMilestone := fun s _ _ _ _ _ => (.ok 1, s)
  getMilestoneID := fun s _ _ _ => (.ok "milestone-node-id", s)
  findIssueByTitle := fun s _ _ _ => (.ok (0, ""), s)
  getOrCreateLabel := fun s _ _ n => (.ok ("label-" ++ n), s)
  getUserID := fun s l => (.ok ("user-" ++ l), s)
  createIssue := fun s input =>
    (.ok ⟨"issue-id-" ++ input.title, Int.ofNat s + 1, "url-" ++ input.title⟩, s + 1)
  addIssueToProjectV2 := fun s _ cid => (.ok ("project-item-" ++ cid), s)
  updateProjectV2ItemStatus := fun s _ _ _ _ => (.ok (), s)

/-- The double of C4: like `okClient` but every status-set call fails. -/
def statusFailClient : GitHubClient Nat :=
  { okClient with updateProjectV2ItemStatus := fun s _ _ _ _ => (.error "status boom", s) }

/-- Like `statusFailClient`, but every title already exists remotely. -/
def statusFailAllExistClient : GitHubClient Nat :=
  { statusFailClient with findIssueByTitle := fun s _ _ t => (.ok (7, "node-" ++ t), s) }

/-- A double whose `CreateIssue` always fails (everything before it,
including milestone creation, succeeds). -/
def createFailClient : GitHubClient Nat :=
  { okClient with createIssue := fun s _ => (.error "create boom", s) }

/-- A double whose repository resolution fails. -/
def repoFailClient : GitHubClient Nat :=
  { okClient with getRepositoryID := fun s _ _ => (.error "repo boom", s) }

/-- A small concrete plan: one milestone, one epic with a recognized
status, one labelled child. -/
def demoPlan : Plan where
  project := "Test Project"
  repository := "owner/repo"
  milestones := [⟨"Phase 1", "2026-04-01", "First phase"⟩]
  epics := [{ title := "Epic 1", body := "Epic body", milestone := "Phase 1", status := "Todo",
              labels := ["backend"], assignees := ["dev1"],
              children := [⟨"Child 1", "Child body 1", ["database"]⟩] }]

/-- `demoPlan` with an epic that has no children (so the first
status-set of a run happens right after the epic's own creation). -/
def demoPlanNoChildren : Plan :=
  { demoPlan with epics := [⟨"Epic 1", "Epic body", "Phase 1", "Todo", [], [], []⟩] }

/-- `demoPlan` with an invalid repository string. -/
def demoPlanBadRepo : Plan := { demoPlan with repository := "invalid-no-slash" }


/-- Like `okClient` but every title already exists remotely (number 7). -/
def allExistClient : GitHubClient Nat :=
  { okClient with findIssueByTitle := fun s _ _ t => (.ok (7, "node-" ++ t), s) }

/-- A concrete resolved run context whose board knows only the status
option "Todo". -/
def demoEnv : Env :=
  ⟨"repo-node-id", "project-node-id", "status-field-id", [("Todo", "todo-option-id")],
    "owner", "repo"⟩

def demoEpicUnmatched : Epic :=
  ⟨"Epic 1", "Epic body", "", "Weird", [], [], [⟨"Child 1", "Child body 1", []⟩]⟩

/-- A trace whose last entry is an invocation for which the capability
reported an error. -/
def endsWithError (tr : List Call) : Prop :=
  ∃ tr₀ cl, tr = tr₀ ++ [cl] ∧ cl.isErrorResult = true

/-- A concrete epic with one labelled child, an assignee, a declared
milestone and a recognized status. -/
def demoEpic : Epic :=
  ⟨"Epic 1", "Epic body", "Phase 1", "Todo", ["backend"], ["dev1"],
    [⟨"Child 1", "Child body 1", ["database"]⟩]⟩

/-- The `CreateIssueInput` the engine passes for `demoEpic`'s own
creation in a fresh run against `okClient` and `demoEnv`. -/
def demoEpicInput : CreateIssueInput :=
  ⟨"repo-node-id", "Epic 1", "Epic body\n\n- [ ] #1", some "milestone-node-id",
    ["label-backend"], some ["user-dev1"]⟩

lemma syncMilestones_dryRun {σ : Type} (c : GitHubClient σ) (owner repo : String)
    (ms : List Milestone) (acc : List (String × String)) (rep : Report) (s : σ) :
    syncMilestones c true owner repo ms acc rep s = (.ok (acc, rep), s, []) := by
  induction ms with
  | nil => rfl
  | cons m rest ih => simp [syncMilestones, ih]

lemma processEpics_dryRun {σ : Type} (c : GitHubClient σ) (env : Env)
    (mm : List (String × String)) (epics : List Epic) (rep : Report) (s : σ) :
    processEpics c env mm true epics rep s = (.ok rep, s, []) := by
  induction epics with
  | nil => rfl
  | cons e rest ih => simp [processEpics, ih]

lemma phase0_no_mutating {σ : Type} (c : GitHubClient σ) (owner repo project : String) (s : σ) :
    ∀ cl ∈ (phase0 c owner repo project s).2.2, cl.isMutating = false := by
  unfold phase0
  rcases h1 : c.getRepositoryID s owner repo with ⟨e1 | rid, s₁⟩
  · simp [h1, Call.isMutating]
  · rcases h2 : c.getProjectV2ID s₁ owner project with ⟨e2 | pid, s₂⟩
    · simp [h1, h2, Call.isMutating]
    · rcases h3 : c.getProjectV2StatusFieldOptions s₂ pid with ⟨e3 | ⟨fid, opts⟩, s₃⟩
      · simp [h1, h2, h3, Call.isMutating]
      · simp [h1, h2, h3, Call.isMutating]

lemma phase0_err_repo {σ : Type} (c : GitHubClient σ) (o rp p : String) (s : σ)
    (e : String) (s₁ : σ) (h : c.getRepositoryID s o rp = (.error e, s₁)) :
    phase0 c o rp p s = (.error ("failed to get repository id: " ++ e), s₁,
      [Call.getRepositoryID o rp (.error e)]) := by
  simp [phase0, h]

lemma phase0_err_proj {σ : Type} (c : GitHubClient σ) (o rp p : String) (s : σ)
    (rid : String) (s₁ : σ) (e : String) (s₂ : σ)
    (h1 : c.getRepositoryID s o rp = (.ok rid, s₁))
    (h2 : c.getProjectV2ID s₁ o p = (.error e, s₂)) :
    phase0 c o rp p s = (.error ("failed to get project id: " ++ e), s₂,
      [Call.getRepositoryID o rp (.ok rid), Call.getProjectV2ID o p (.error e)]) := by
  simp [phase0, h1, h2]

lemma phase0_err_status {σ : Type} (c : GitHubClient σ) (o rp p : String) (s : σ)
    (rid : String) (s₁ : σ) (pid : String) (s₂ : σ) (e : String) (s₃ : σ)
    (h1 : c.getRepositoryID s o rp = (.ok rid, s₁))
    (h2 : c.getProjectV2ID s₁ o p = (.ok pid, s₂))
    (h3 : c.getProjectV2StatusFieldOptions s₂ pid = (.error e, s₃)) :
    phase0 c o rp p s = (.error ("failed to get project status field options: " ++ e), s₃,
      [Call.getRepositoryID o rp (.ok rid), Call.getProjectV2ID o p (.ok pid),
        Call.getProjectV2StatusFieldOptions pid (.error e)]) := by
  simp [phase0, h1, h2, h3]

lemma phase0_mem_repo {σ : Type} (c : GitHubClient σ) (o rp p : String) (s : σ) :
    ∃ r, Call.getRepositoryID o rp r ∈ (phase0 c o rp p s).2.2 := by
  rcases h1 : c.getRepositoryID s o rp with ⟨e1 | rid, s₁⟩
  · exact ⟨.error e1, by simp [phase0, h1]⟩
  · rcases h2 : c.getProjectV2ID s₁ o p with ⟨e2 | pid, s₂⟩
    · exact ⟨.ok rid, by simp [phase0, h1, h2]⟩
    · rcases h3 : c.getProjectV2StatusFieldOptions s₂ pid with ⟨e3 | ⟨fid, opts⟩, s₃⟩
      · exact ⟨.ok rid, by simp [phase0, h1, h2, h3]⟩
      · exact ⟨.ok rid, by simp [phase0, h1, h2, h3]⟩

lemma phase0_mem_proj {σ : Type} (c : GitHubClient σ) (o rp p : String) (s : σ)
    (rid : String) (s₁ : σ) (h1 : c.getRepositoryID s o rp = (.ok rid, s₁)) :
    ∃ r, Call.getProjectV2ID o p r ∈ (phase0 c o rp p s).2.2 := by
  rcases h2 : c.getProjectV2ID s₁ o p with ⟨e2 | pid, s₂⟩
  · exact ⟨.error e2, by simp [phase0, h1, h2]⟩
  · rcases h3 : c.getProjectV2StatusFieldOptions s₂ pid with ⟨e3 | ⟨fid, opts⟩, s₃⟩
    · exact ⟨.ok pid, by simp [phase0, h1, h2, h3]⟩
    · exact ⟨.ok pid, by simp [phase0, h1, h2, h3]⟩

lemma phase0_mem_status {σ : Type} (c : GitHubClient σ) (o rp p : String) (s : σ)
    (rid : String) (s₁ : σ) (pid : String) (s₂ : σ)
    (h1 : c.getRepositoryID s o rp = (.ok rid, s₁))
    (h2 : c.getProjectV2ID s₁ o p = (.ok pid, s₂)) :
    ∃ r, Call.getProjectV2StatusFieldOptions pid r ∈ (phase0 c o rp p s).2.2 := by
  rcases h3 : c.getProjectV2StatusFieldOptions s₂ pid with ⟨e3 | ⟨fid, opts⟩, s₃⟩
  · exact ⟨.error e3, by simp [phase0, h1, h2, h3]⟩
  · exact ⟨.ok (fid, opts), by simp [phase0, h1, h2, h3]⟩

lemma applyPlan_dryRun_eq {σ : Type} (c : GitHubClient σ) (plan : Plan) (s : σ)
    (oc rc : List Char) (hsp : splitOnSlash plan.repository.data = [oc, rc]) :
    ApplyPlan c plan ⟨true⟩ s =
      (match phase0 c (String.mk oc) (String.mk rc) plan.project s with
       | (.error e, s₁, tr₀) => (.error e, s₁, tr₀)
       | (.ok _, s₁, tr₀) => (.ok Report.empty, s₁, tr₀)) := by
  simp only [ApplyPlan, hsp]
  rcases hp : phase0 c (String.mk oc) (String.mk rc) plan.project s with ⟨r₀, s₁, tr₀⟩
  cases r₀ with
  | error e => simp
  | ok quad =>
    obtain ⟨rid, pid, fid, opts⟩ := quad
    simp [syncMilestones_dryRun, processEpics_dryRun]

lemma applyPlan_trace_starts_phase0 {σ : Type} (c : GitHubClient σ) (plan : Plan) (opts : Options)
    (s : σ) (oc rc : List Char) (hsp : splitOnSlash plan.repository.data = [oc, rc]) :
    ∃ tr, (ApplyPlan c plan opts s).2.2 =
      (phase0 c (String.mk oc) (String.mk rc) plan.project s).2.2 ++ tr := by
  simp only [ApplyPlan, hsp]
  rcases hp : phase0 c (String.mk oc) (String.mk rc) plan.project s with ⟨r₀, s₁, tr₀⟩
  cases r₀ with
  | error e => exact ⟨[], by simp⟩
  | ok quad =>
    obtain ⟨rid, pid, fid, opts'⟩ := quad
    rcases hm : syncMilestones c opts.dryRun (String.mk oc) (String.mk rc) plan.milestones []
        Report.empty s₁ with ⟨rm, s₂, trm⟩
    cases rm with
    | error e => exact ⟨trm, by simp [hm]⟩
    | ok accRep =>
      obtain ⟨mmap, rep⟩ := accRep
      rcases he : processEpics c ⟨rid, pid, fid, opts', String.mk oc, String.mk rc⟩ mmap
          opts.dryRun plan.epics rep s₂ with ⟨re, s₃, tre⟩
      exact ⟨trm ++ tre, by simp [hm, he]⟩

/-- Claim C7: a plan whose repository string does not split into exactly
two slash-separated parts makes `ApplyPlan` return the format error
with an empty invocation trace (no capability method invoked), in live
and dry-run mode alike. -/
theorem applyPlan_invalidRepo_aborts_before_calls {σ : Type} (c : GitHubClient σ) (plan : Plan)
    (opts : Options) (s : σ) (h : (splitOnSlash plan.repository.data).length ≠ 2) :
    ApplyPlan c plan opts s =
      (.error ("invalid repository format: " ++ plan.repository), s, []) := by
  rcases hsp : splitOnSlash plan.repository.data with _ | ⟨a, _ | ⟨b, _ | ⟨d, l⟩⟩⟩
  · simp [ApplyPlan, hsp]
  · simp [ApplyPlan, hsp]
  · rw [hsp] at h; simp at h
  · simp [ApplyPlan, hsp]

/-- Claim C7 witness: the scenario plan with repository
"invalid-no-slash" fails with the format error and no capability call,
in live mode. -/
theorem applyPlan_invalidRepo_witness :
    ApplyPlan okClient demoPlanBadRepo ⟨false⟩ 0 =
      (.error ("invalid repository format: " ++ demoPlanBadRepo.repository), 0, []) :=
  applyPlan_invalidRepo_aborts_before_calls okClient demoPlanBadRepo ⟨false⟩ 0 (by decide)

/-- Claim C3: under dry-run, no mutating capability method
(`GetOrCreateMilestone`, `GetOrCreateLabel`, `CreateIssue`,
`AddIssueToProjectV2`, `UpdateProjectV2ItemStatus`) is ever invoked,
and whenever a report is returned all its counters are zero. -/
theorem applyPlan_dryRun_purity {σ : Type} (c : GitHubClient σ) (plan : Plan) (s : σ) :
    (∀ cl ∈ (ApplyPlan c plan ⟨true⟩ s).2.2, cl.isMutating = false) ∧
    (∀ rep, (ApplyPlan c plan ⟨true⟩ s).1 = .ok rep →
      rep.milestonesCreated = 0 ∧ rep.epicsCreated = 0 ∧ rep.epicsSkipped = 0 ∧
        rep.issuesCreated = 0 ∧ rep.issuesSkipped = 0) := by
  rcases hsp : splitOnSlash plan.repository.data with _ | ⟨a, _ | ⟨b, _ | ⟨d, l⟩⟩⟩
  · simp [ApplyPlan, hsp]
  · simp [ApplyPlan, hsp]
  · rw [applyPlan_dryRun_eq c plan s a b hsp]
    have hmut := phase0_no_mutating c (String.mk a) (String.mk b) plan.project s
    rcases hp : phase0 c (String.mk a) (String.mk b) plan.project s with ⟨r₀, s₁, tr₀⟩
    rw [hp] at hmut
    cases r₀ with
    | error e =>
      simp only [hp]
      exact ⟨by simpa using hmut, by simp⟩
    | ok quad =>
      simp only [hp]
      refine ⟨by simpa using hmut, ?_⟩
      intro rep hrep
      simp at hrep
      simp [← hrep, Report.empty]
  · simp [ApplyPlan, hsp]

/-- Claim C3 witness: the dry run of the scenario plan against the
all-succeeding double invokes no mutating method. -/
theorem applyPlan_dryRun_purity_witness :
    ∀ cl ∈ (ApplyPlan okClient demoPlan ⟨true⟩ 0).2.2, cl.isMutating = false :=
  (applyPlan_dryRun_purity okClient demoPlan 0).1

/-- Claim C9: even under dry-run, `ApplyPlan` still performs the three
Phase-0 resolution calls (repository id, project id, status field
options, each as soon as its predecessors succeed), and a failure of
any of them makes the run return an error and no report. -/
theorem applyPlan_dryRun_phase0_resolution {σ : Type} (c : GitHubClient σ) (plan : Plan)
    (s : σ) (oc rc : List Char) (hsp : splitOnSlash plan.repository.data = [oc, rc]) :
    (∃ r, Call.getRepositoryID (String.mk oc) (String.mk rc) r ∈
      (ApplyPlan c plan ⟨true⟩ s).2.2) ∧
    (∀ rid s₁, c.getRepositoryID s (String.mk oc) (String.mk rc) = (.ok rid, s₁) →
      ∃ r, Call.getProjectV2ID (String.mk oc) plan.project r ∈ (ApplyPlan c plan ⟨true⟩ s).2.2) ∧
    (∀ rid s₁ pid s₂, c.getRepositoryID s (String.mk oc) (String.mk rc) = (.ok rid, s₁) →
      c.getProjectV2ID s₁ (String.mk oc) plan.project = (.ok pid, s₂) →
      ∃ r, Call.getProjectV2StatusFieldOptions pid r ∈ (ApplyPlan c plan ⟨true⟩ s).2.2) ∧
    (∀ e s₁, c.getRepositoryID s (String.mk oc) (String.mk rc) = (.error e, s₁) →
      ApplyPlan c plan ⟨true⟩ s = (.error ("failed to get repository id: " ++ e), s₁,
        [Call.getRepositoryID (String.mk oc) (String.mk rc) (.error e)])) ∧
    (∀ rid s₁ e s₂, c.getRepositoryID s (String.mk oc) (String.mk rc) = (.ok rid, s₁) →
      c.getProjectV2ID s₁ (String.mk oc) plan.project = (.error e, s₂) →
      ApplyPlan c plan ⟨true⟩ s = (.error ("failed to get project id: " ++ e), s₂,
        [Call.getRepositoryID (String.mk oc) (String.mk rc) (.ok rid),
          Call.getProjectV2ID (String.mk oc) plan.project (.error e)])) ∧
    (∀ rid s₁ pid s₂ e s₃, c.getRepositoryID s (String.mk oc) (String.mk rc) = (.ok rid, s₁) →
      c.getProjectV2ID s₁ (String.mk oc) plan.project = (.ok pid, s₂) →
      c.getProjectV2StatusFieldOptions s₂ pid = (.error e, s₃) →
      ApplyPlan c plan ⟨true⟩ s =
        (.error ("failed to get project status field options: " ++ e), s₃,
          [Call.getRepositoryID (String.mk oc) (String.mk rc) (.ok rid),
            Call.getProjectV2ID (String.mk oc) plan.project (.ok pid),
            Call.getProjectV2StatusFieldOptions pid (.error e)])) := by
  refine ⟨?_, ?_, ?_, ?_, ?_, ?_⟩
  · obtain ⟨tr, htr⟩ := applyPlan_trace_starts_phase0 c plan ⟨true⟩ s oc rc hsp
    obtain ⟨r, hr⟩ := phase0_mem_repo c (String.mk oc) (String.mk rc) plan.project s
    exact ⟨r, by rw [htr]; exact List.mem_append_left _ hr⟩
  · intro rid s₁ h1
    obtain ⟨tr, htr⟩ := applyPlan_trace_starts_phase0 c plan ⟨true⟩ s oc rc hsp
    obtain ⟨r, hr⟩ := phase0_mem_proj c (String.mk oc) (String.mk rc) plan.project s rid s₁ h1
    exact ⟨r, by rw [htr]; exact List.mem_append_left _ hr⟩
  · intro rid s₁ pid s₂ h1 h2
    obtain ⟨tr, htr⟩ := applyPlan_trace_starts_phase0 c plan ⟨true⟩ s oc rc hsp
    obtain ⟨r, hr⟩ :=
      phase0_mem_status c (String.mk oc) (String.mk rc) plan.project s rid s₁ pid s₂ h1 h2
    exact ⟨r, by rw [htr]; exact List.mem_append_left _ hr⟩
  · intro e s₁ h1
    rw [applyPlan_dryRun_eq c plan s oc rc hsp,
      phase0_err_repo c (String.mk oc) (String.mk rc) plan.project s e s₁ h1]
  · intro rid s₁ e s₂ h1 h2
    rw [applyPlan_dryRun_eq c plan s oc rc hsp,
      phase0_err_proj c (String.mk oc) (String.mk rc) plan.project s rid s₁ e s₂ h1 h2]
  · intro rid s₁ pid s₂ e s₃ h1 h2 h3
    rw [applyPlan_dryRun_eq c plan s oc rc hsp,
      phase0_err_status c (String.mk oc) (String.mk rc) plan.project s rid s₁ pid s₂ e s₃ h1 h2 h3]

/-- Claim C9 witness: with a double whose repository resolution fails,
the dry run of the scenario plan returns the wrapped error after
invoking exactly the repository resolution. -/
theorem applyPlan_dryRun_phase0_witness :
    ApplyPlan repoFailClient demoPlan ⟨true⟩ 0 =
      (.error ("failed to get repository id: " ++ "repo boom"), 0,
        [Call.getRepositoryID (String.mk ("owner".data)) (String.mk ("repo".data))
          (.error "repo boom")]) :=
  (applyPlan_dryRun_phase0_resolution repoFailClient demoPlan 0 ("owner".data) ("repo".data)
    rfl).2.2.2.1 "repo boom" 0 rfl

lemma splitOnSlash_ne_nil (l : List Char) : splitOnSlash l ≠ [] := by
  cases l with
  | nil => simp [splitOnSlash]
  | cons ch rest =>
    by_cases h : ch = '/'
    · simp [splitOnSlash, h]
    · simp only [splitOnSlash, if_neg h]
      rcases hr : splitOnSlash rest with _ | ⟨p, ps⟩ <;> simp

lemma splitOnSlash_length (l : List Char) :
    (splitOnSlash l).length = l.count '/' + 1 := by
  induction l with
  | nil => simp [splitOnSlash]
  | cons ch rest ih =>
    by_cases h : ch = '/'
    · simp [splitOnSlash, h, List.count_cons, ih]
    · simp only [splitOnSlash, if_neg h]
      rcases hr : splitOnSlash rest with _ | ⟨p, ps⟩
      · exact absurd hr (splitOnSlash_ne_nil rest)
      · rw [hr] at ih
        simp only [List.length_cons] at ih ⊢
        simp [List.count_cons, h, ih]

lemma splitRepo_cases (l : List Char) :
    ('/' ∉ l ∧ splitRepo l = [l]) ∨
      (∃ a b, l = a ++ '/' :: b ∧ '/' ∉ a ∧ splitRepo l = [a, b]) := by
  induction l with
  | nil => exact .inl ⟨by simp, rfl⟩
  | cons ch rest ih =>
    by_cases h : ch = '/'
    · subst h
      exact .inr ⟨[], rest, by simp, by simp, by simp [splitRepo]⟩
    · rcases ih with ⟨hnot, heq⟩ | ⟨a, b, hl, ha, heq⟩
      · refine .inl ⟨?_, ?_⟩
        · intro hc
          rcases List.mem_cons.mp hc with hc | hc
          · exact h hc.symm
          · exact hnot hc
        · simp [splitRepo, if_neg h, heq]
      · refine .inr ⟨ch :: a, b, by rw [hl]; simp, ?_, ?_⟩
        · intro hc
          rcases List.mem_cons.mp hc with hc | hc
          · exact h hc.symm
          · exact ha hc
        · simp [splitRepo, if_neg h, heq]

lemma splitRepo_first_slash (a b : List Char) (ha : '/' ∉ a) :
    splitRepo (a ++ '/' :: b) = [a, b] := by
  induction a with
  | nil => simp [splitRepo]
  | cons ch a' ih =>
    have hch : ch ≠ '/' := fun hc => ha (hc ▸ List.mem_cons_self ch a')
    have ha' : '/' ∉ a' := fun hc => ha (List.mem_cons_of_mem ch hc)
    simp [splitRepo, if_neg hch, ih ha']

/-- Claim C10 counterexample: at repository string "a/b/c",
`validatePlan` reports no format error (split at the first slash gives
"a" and "b/c", both non-empty) while `ApplyPlan`'s entry check rejects
it (three slash-separated parts), so the two checks do not accept the
same set. -/
theorem repoChecks_not_equivalent :
    ¬ (applyRepoOk (("a/b/c" : String).data) = true ↔
        validateRepoFormatError (("a/b/c" : String).data) = false) := by
  decide

/-- Claim C10 amended: the two checks are not equivalent.  `ApplyPlan`'s
entry check passes exactly on strings containing exactly one slash;
`validatePlan` reports no repository-format error exactly on the empty
string (which gets the distinct "required" error) and on strings whose
first slash has non-empty text before and after it.  The sets are
incomparable: `ApplyPlan` accepts "/b" which `validatePlan` rejects,
and `validatePlan` accepts "a/b/c" which `ApplyPlan` rejects. -/
theorem repoChecks_characterized :
    (∀ l : List Char, applyRepoOk l = true ↔ l.count '/' = 1) ∧
    (∀ l : List Char, validateRepoFormatError l = false ↔
      (l = [] ∨ ∃ a b, l = a ++ '/' :: b ∧ '/' ∉ a ∧ a ≠ [] ∧ b ≠ [])) ∧
    (applyRepoOk (("/b" : String).data) = true ∧
      validateRepoFormatError (("/b" : String).data) = true) ∧
    (applyRepoOk (("a/b/c" : String).data) = false ∧
      validateRepoFormatError (("a/b/c" : String).data) = false) := by
  refine ⟨?_, ?_, by decide, by decide⟩
  · intro l
    rw [applyRepoOk, beq_iff_eq, splitOnSlash_length]
    omega
  · intro l
    constructor
    · intro hval
      by_cases hnil : l = []
      · exact .inl hnil
      · rcases splitRepo_cases l with ⟨hnot, heq⟩ | ⟨a, b, hl, ha, heq⟩
        · rw [validateRepoFormatError, if_neg (by simpa using hnil), heq] at hval
          simp at hval
        · rw [validateRepoFormatError, if_neg (by simpa using hnil), heq] at hval
          simp at hval
          exact .inr ⟨a, b, hl, ha, by simpa using hval.1, by simpa using hval.2⟩
    · rintro (hnil | ⟨a, b, hl, ha, hane, hbne⟩)
      · simp [validateRepoFormatError, hnil]
      · have hnil : l ≠ [] := by rw [hl]; simp
        rw [validateRepoFormatError, if_neg (by simpa using hnil), hl,
          splitRepo_first_slash a b ha]
        simpa using ⟨hane, hbne⟩

/-- Claim C10 amended witness: the characterization evaluated at
"owner/repo" (exactly one slash, both checks accept). -/
theorem repoChecks_characterized_witness :
    applyRepoOk (("owner/repo" : String).data) = true ↔
      (("owner/repo" : String).data).count '/' = 1 :=
  repoChecks_characterized.1 (("owner/repo" : String).data)

/-- Claim C8 counterexample: a milestone whose dueOn is non-empty and
unparsable, but whose title already exists in the remote listing:
`GetOrCreateMilestone` returns the existing milestone successfully and
never reaches the date parse, so the claim as stated fails. -/
theorem getOrCreateMilestone_existing_ignores_bad_date :
    ("not-a-date" ≠ "") ∧
    ((fun _ => (none : Option Int)) "not-a-date" = none) ∧
    GetOrCreateMilestone (.ok [⟨"Phase 1", 1⟩]) (fun _ => none)
      (fun t _ _ => .ok ⟨t, 2⟩) "Phase 1" "desc" "not-a-date" = .ok ⟨"Phase 1", 1⟩ :=
  ⟨by decide, rfl, rfl⟩

/-- Claim C8 amended: for every milestone whose dueOn is non-empty and
does not parse as a date, `GetOrCreateMilestone` fails with an error
provided the milestone is on the creation path, i.e. its title is not
among the successfully listed remote milestones. -/
theorem getOrCreateMilestone_invalid_date_fails
    (parseDate : String → Option Int)
    (createMilestone : String → String → Option Int → Except String RemoteMilestone)
    (ms : List RemoteMilestone) (title desc dueOn : String)
    (hne : dueOn ≠ "") (hparse : parseDate dueOn = none)
    (habsent : ∀ m ∈ ms, m.title ≠ title) :
    GetOrCreateMilestone (.ok ms) parseDate createMilestone title desc dueOn =
      .error ("cannot parse \"" ++ dueOn ++ "\" as \"2006-01-02\"") := by
  have hfind : ms.find? (fun m => m.title = title) = none := by
    rw [List.find?_eq_none]
    intro m hm
    simp [habsent m hm]
  simp [GetOrCreateMilestone, hfind, hne, hparse]

/-- Claim C8 amended witness: creation path (empty listing) with an
unparsable non-empty dueOn fails. -/
theorem getOrCreateMilestone_invalid_date_witness :
    GetOrCreateMilestone (.ok []) (fun _ => none) (fun t _ _ => .ok ⟨t, 2⟩)
      "Phase 1" "" "not-a-date" =
      .error ("cannot parse \"" ++ "not-a-date" ++ "\" as \"2006-01-02\"") :=
  getOrCreateMilestone_invalid_date_fails (fun _ => none) (fun t _ _ => .ok ⟨t, 2⟩)
    [] "Phase 1" "" "not-a-date" (by decide) rfl (by simp)

lemma setStatusSwallow_trace_shape {σ : Type} (c : GitHubClient σ) (env : Env)
    (st itemID : String) (s : σ) :
    (setStatusSwallow c env st itemID s).2 = [] ∨
    ∃ optID r, (setStatusSwallow c env st itemID s).2 =
      [Call.updateProjectV2ItemStatus env.projectID itemID env.statusFieldID optID r] := by
  unfold setStatusSwallow
  by_cases h : st = ""
  · simp [h]
  · simp only [if_neg h]
    cases hl : lookupAssoc env.statusOptions st with
    | none => simp
    | some optID =>
      rcases hc : c.updateProjectV2ItemStatus s env.projectID itemID env.statusFieldID optID
        with ⟨r, s₁⟩
      exact .inr ⟨optID, r, by simp [hc]⟩

lemma setStatusSwallow_no_create {σ : Type} (c : GitHubClient σ) (env : Env)
    (st itemID : String) (s : σ) :
    ∀ cl ∈ (setStatusSwallow c env st itemID s).2, cl.isCreateIssue = false := by
  rcases setStatusSwallow_trace_shape c env st itemID s with h | ⟨optID, r, h⟩ <;>
    rw [h] <;> simp [Call.isCreateIssue]

lemma processChildren_all_exist {σ : Type} (c : GitHubClient σ) (env : Env) (st : String)
    (hFind : ∀ s o r t, ∃ n nid s₁,
      c.findIssueByTitle s o r t = (.ok (n, nid), s₁) ∧ 0 < n)
    (hAdd : ∀ s p cid, ∃ item s₁, c.addIssueToProjectV2 s p cid = (.ok item, s₁)) :
    ∀ (children : List Issue) (lines : List String) (rep : Report) (s : σ),
      ∃ lines₁ s₁ tr,
        processChildren c env st children lines rep s =
          (.ok (lines₁,
            { rep with issuesSkipped := rep.issuesSkipped + children.length }), s₁, tr) ∧
        ∀ cl ∈ tr, cl.isCreateIssue = false := by
  intro children
  induction children with
  | nil =>
    intro lines rep s
    exact ⟨lines, s, [], by simp [processChildren], by simp⟩
  | cons child rest ih =>
    intro lines rep s
    obtain ⟨n, nid, s₁, hf, hpos⟩ := hFind s env.owner env.repo child.title
    obtain ⟨item, s₂, hadd⟩ := hAdd s₁ env.projectID nid
    rcases hsw : setStatusSwallow c env st item s₂ with ⟨s₃, trSt⟩
    obtain ⟨lines₁, s₄, tr, hrec, hnc⟩ :=
      ih (lines ++ [taskLine n]) { rep with issuesSkipped := rep.issuesSkipped + 1 } s₃
    refine ⟨lines₁, s₄,
      Call.findIssueByTitle env.owner env.repo child.title (.ok (n, nid))
        :: Call.addIssueToProjectV2 env.projectID nid (.ok item) :: trSt ++ tr, ?_, ?_⟩
    · simp only [processChildren, hf, hadd, hsw, if_pos hpos, hrec]
      have harith : rep.issuesSkipped + 1 + rest.length =
          rep.issuesSkipped + (rest.length + 1) := by omega
      simp [harith]
    · intro cl hcl
      rcases List.mem_cons.mp hcl with hcl | hcl
      · rw [hcl]; rfl
      rcases List.mem_cons.mp hcl with hcl | hcl
      · rw [hcl]; rfl
      rcases List.mem_append.mp hcl with hcl | hcl
      · have := setStatusSwallow_no_create c env st item s₂
        rw [hsw] at this
        exact this cl hcl
      · exact hnc cl hcl

lemma totalChildren_cons (epic : Epic) (rest : List Epic) :
    totalChildren (epic :: rest) = epic.children.length + totalChildren rest := by
  simp [totalChildren]

lemma processEpics_all_exist {σ : Type} (c : GitHubClient σ) (env : Env)
    (mm : List (String × String))
    (hFind : ∀ s o r t, ∃ n nid s₁,
      c.findIssueByTitle s o r t = (.ok (n, nid), s₁) ∧ 0 < n)
    (hAdd : ∀ s p cid, ∃ item s₁, c.addIssueToProjectV2 s p cid = (.ok item, s₁)) :
    ∀ (epics : List Epic) (rep : Report) (s : σ),
      ∃ s₁ tr,
        processEpics c env mm false epics rep s =
          (.ok { rep with epicsSkipped := rep.epicsSkipped + epics.length, issuesSkipped := rep.issuesSkipped + totalChildren epics }, s₁, tr) ∧
        ∀ cl ∈ tr, cl.isCreateIssue = false := by
  intro epics
  induction epics with
  | nil =>
    intro rep s
    exact ⟨s, [], by simp [processEpics, totalChildren], by simp⟩
  | cons epic rest ih =>
    intro rep s
    obtain ⟨lines₁, sC, trC, hch, hncC⟩ :=
      processChildren_all_exist c env epic.status hFind hAdd epic.children [] rep s
    obtain ⟨n, nid, s₁, hf, hpos⟩ := hFind sC env.owner env.repo epic.title
    obtain ⟨item, s₂, hadd⟩ := hAdd s₁ env.projectID nid
    rcases hsw : setStatusSwallow c env epic.status item s₂ with ⟨s₃, trSt⟩
    set rep₁ : Report := { rep with issuesSkipped := rep.issuesSkipped + epic.children.length } with hrep₁
    obtain ⟨s₄, tr, hrec, hnc⟩ := ih { rep₁ with epicsSkipped := rep₁.epicsSkipped + 1 } s₃
    refine ⟨s₄,
      (trC ++ Call.findIssueByTitle env.owner env.repo epic.title (.ok (n, nid))
        :: Call.addIssueToProjectV2 env.projectID nid (.ok item) :: trSt) ++ tr, ?_, ?_⟩
    · simp only [processEpics, if_neg (by simp : ¬(false : Bool) = true), processEpic,
        hch, hf, hadd, hsw, if_pos hpos, hrec]
      have h1 : rep.epicsSkipped + 1 + rest.length = rep.epicsSkipped + (rest.length + 1) := by
        omega
      have h2 : rep.issuesSkipped + epic.children.length + totalChildren rest =
          rep.issuesSkipped + totalChildren (epic :: rest) := by
        rw [totalChildren_cons]; omega
      simp [h1, h2, totalChildren_cons]
    · intro cl hcl
      rcases List.mem_append.mp hcl with hcl | hcl
      · rcases List.mem_append.mp hcl with hcl | hcl
        · exact hncC cl hcl
        · rcases List.mem_cons.mp hcl with hcl | hcl
          · rw [hcl]; rfl
          rcases List.mem_cons.mp hcl with hcl | hcl
          · rw [hcl]; rfl
          · have := setStatusSwallow_no_create c env epic.status item s₂
            rw [hsw] at this
            exact this cl hcl
      · exact hnc cl hcl

lemma syncMilestones_all_ok {σ : Type} (c : GitHubClient σ) (owner repo : String)
    (hMile : ∀ s t d du, ∃ n s₁,
      c.getOrCreateMilestone s owner repo t d du = (.ok n, s₁))
    (hMileID : ∀ s n, ∃ mid s₁, c.getMilestoneID s owner repo n = (.ok mid, s₁)) :
    ∀ (ms : List Milestone) (acc : List (String × String)) (rep : Report) (s : σ),
      ∃ mmap s₁ tr,
        syncMilestones c false owner repo ms acc rep s =
          (.ok (mmap,
            { rep with milestonesCreated := rep.milestonesCreated + ms.length }), s₁, tr) ∧
        ∀ cl ∈ tr, cl.isCreateIssue = false := by
  intro ms
  induction ms with
  | nil =>
    intro acc rep s
    exact ⟨acc, s, [], by simp [syncMilestones], by simp⟩
  | cons m rest ih =>
    intro acc rep s
    obtain ⟨n, s₁, hm⟩ := hMile s m.title m.description m.dueOn
    obtain ⟨mid, s₂, hid⟩ := hMileID s₁ n
    obtain ⟨mmap, s₃, tr, hrec, hnc⟩ :=
      ih ((m.title, mid) :: acc) { rep with milestonesCreated := rep.milestonesCreated + 1 } s₂
    refine ⟨mmap, s₃,
      Call.getOrCreateMilestone owner repo m.title m.description m.dueOn (.ok n)
        :: Call.getMilestoneID owner repo n (.ok mid) :: tr, ?_, ?_⟩
    · simp only [syncMilestones, if_neg (by simp : ¬(false : Bool) = true), hm, hid, hrec]
      have harith : rep.milestonesCreated + 1 + rest.length =
          rep.milestonesCreated + (rest.length + 1) := by omega
      simp [harith]
    · intro cl hcl
      rcases List.mem_cons.mp hcl with hcl | hcl
      · rw [hcl]; rfl
      rcases List.mem_cons.mp hcl with hcl | hcl
      · rw [hcl]; rfl
      · exact hnc cl hcl

lemma phase0_all_ok {σ : Type} (c : GitHubClient σ) (o rp p : String) (s : σ)
    (hRepo : ∀ s o r, ∃ rid s₁, c.getRepositoryID s o r = (.ok rid, s₁))
    (hProj : ∀ s o t, ∃ pid s₁, c.getProjectV2ID s o t = (.ok pid, s₁))
    (hStat : ∀ s pid, ∃ fid opts s₁,
      c.getProjectV2StatusFieldOptions s pid = (.ok (fid, opts), s₁)) :
    ∃ rid pid fid opts s₁,
      phase0 c o rp p s = (.ok (rid, pid, fid, opts), s₁,
        [Call.getRepositoryID o rp (.ok rid), Call.getProjectV2ID o p (.ok pid),
          Call.getProjectV2StatusFieldOptions pid (.ok (fid, opts))]) := by
  obtain ⟨rid, s₁, h1⟩ := hRepo s o rp
  obtain ⟨pid, s₂, h2⟩ := hProj s₁ o p
  obtain ⟨fid, opts, s₃, h3⟩ := hStat s₂ pid
  exact ⟨rid, pid, fid, opts, s₃, by simp [phase0, h1, h2, h3]⟩

lemma applyPlan_skip_run {σ : Type} (c : GitHubClient σ) (plan : Plan)
    (s : σ) (oc rc : List Char) (hsp : splitOnSlash plan.repository.data = [oc, rc])
    (hRepo : ∀ s o r, ∃ rid s₁, c.getRepositoryID s o r = (.ok rid, s₁))
    (hProj : ∀ s o t, ∃ pid s₁, c.getProjectV2ID s o t = (.ok pid, s₁))
    (hStat : ∀ s pid, ∃ fid opts s₁,
      c.getProjectV2StatusFieldOptions s pid = (.ok (fid, opts), s₁))
    (hMile : ∀ s o r t d du, ∃ n s₁, c.getOrCreateMilestone s o r t d du = (.ok n, s₁))
    (hMileID : ∀ s o r n, ∃ mid s₁, c.getMilestoneID s o r n = (.ok mid, s₁))
    (hFind : ∀ s o r t, ∃ n nid s₁,
      c.findIssueByTitle s o r t = (.ok (n, nid), s₁) ∧ 0 < n)
    (hAdd : ∀ s p cid, ∃ item s₁, c.addIssueToProjectV2 s p cid = (.ok item, s₁)) :
    ∃ rep s₁ tr, ApplyPlan c plan ⟨false⟩ s = (.ok rep, s₁, tr) ∧
      rep.epicsCreated = 0 ∧ rep.issuesCreated = 0 ∧
      rep.issuesSkipped = totalChildren plan.epics ∧
      rep.epicsSkipped = plan.epics.length ∧
      ∀ cl ∈ tr, cl.isCreateIssue = false := by
  obtain ⟨rid, pid, fid, opts, s₁, hp⟩ := phase0_all_ok c (String.mk oc) (String.mk rc)
    plan.project s hRepo hProj hStat
  obtain ⟨mmap, s₂, trM, hm, hncM⟩ := syncMilestones_all_ok c (String.mk oc) (String.mk rc)
    (fun st t d du => hMile st (String.mk oc) (String.mk rc) t d du)
    (fun st n => hMileID st (String.mk oc) (String.mk rc) n)
    plan.milestones [] Report.empty s₁
  obtain ⟨s₃, trE, he, hncE⟩ := processEpics_all_exist c
    ⟨rid, pid, fid, opts, String.mk oc, String.mk rc⟩ mmap hFind hAdd plan.epics
    { Report.empty with milestonesCreated := Report.empty.milestonesCreated + plan.milestones.length } s₂
  refine ⟨⟨plan.milestones.length, 0, plan.epics.length, 0, totalChildren plan.epics, []⟩, s₃,
    [Call.getRepositoryID (String.mk oc) (String.mk rc) (.ok rid),
      Call.getProjectV2ID (String.mk oc) plan.project (.ok pid),
      Call.getProjectV2StatusFieldOptions pid (.ok (fid, opts))] ++ trM ++ trE,
    ?_, rfl, rfl, rfl, rfl, ?_⟩
  · simp only [ApplyPlan, hsp, hp, hm, he]
    simp [Report.empty]
  · intro cl hcl
    rcases List.mem_append.mp hcl with hcl | hcl
    · rcases List.mem_append.mp hcl with hcl | hcl
      · rcases List.mem_cons.mp hcl with hcl | hcl
        · rw [hcl]; rfl
        rcases List.mem_cons.mp hcl with hcl | hcl
        · rw [hcl]; rfl
        rcases List.mem_cons.mp hcl with hcl | hcl
        · rw [hcl]; rfl
        · simp at hcl
      · exact hncM cl hcl
    · exact hncE cl hcl

/-- Claim C1: in live mode, against a capability whose title lookup
reports every epic and child title as already existing, and whose
board-add and remaining context/milestone methods succeed, `ApplyPlan`
returns a report with zero created epics and issues, every child
counted as skipped, every epic counted as skipped, and `CreateIssue` is
never invoked. -/
theorem applyPlan_all_existing_idempotent {σ : Type} (c : GitHubClient σ) (plan : Plan)
    (s : σ) (oc rc : List Char) (hsp : splitOnSlash plan.repository.data = [oc, rc])
    (hRepo : ∀ s o r, ∃ rid s₁, c.getRepositoryID s o r = (.ok rid, s₁))
    (hProj : ∀ s o t, ∃ pid s₁, c.getProjectV2ID s o t = (.ok pid, s₁))
    (hStat : ∀ s pid, ∃ fid opts s₁,
      c.getProjectV2StatusFieldOptions s pid = (.ok (fid, opts), s₁))
    (hMile : ∀ s o r t d du, ∃ n s₁, c.getOrCreateMilestone s o r t d du = (.ok n, s₁))
    (hMileID : ∀ s o r n, ∃ mid s₁, c.getMilestoneID s o r n = (.ok mid, s₁))
    (hFind : ∀ s o r t, ∃ n nid s₁,
      c.findIssueByTitle s o r t = (.ok (n, nid), s₁) ∧ 0 < n)
    (hAdd : ∀ s p cid, ∃ item s₁, c.addIssueToProjectV2 s p cid = (.ok item, s₁)) :
    ∃ rep s₁ tr, ApplyPlan c plan ⟨false⟩ s = (.ok rep, s₁, tr) ∧
      rep.epicsCreated = 0 ∧ rep.issuesCreated = 0 ∧
      rep.issuesSkipped = totalChildren plan.epics ∧
      rep.epicsSkipped = plan.epics.length ∧
      ∀ cl ∈ tr, cl.isCreateIssue = false :=
  applyPlan_skip_run c plan s oc rc hsp hRepo hProj hStat hMile hMileID hFind hAdd

/-- Claim C1 witness: the scenario plan against a double where every
title pre-exists (issue number 7) yields a fully-skipped report. -/
theorem applyPlan_all_existing_idempotent_witness :
    ∃ rep s₁ tr, ApplyPlan allExistClient demoPlan ⟨false⟩ 0 = (.ok rep, s₁, tr) ∧
      rep.epicsCreated = 0 ∧ rep.issuesCreated = 0 ∧
      rep.issuesSkipped = totalChildren demoPlan.epics ∧
      rep.epicsSkipped = demoPlan.epics.length ∧
      ∀ cl ∈ tr, cl.isCreateIssue = false :=
  applyPlan_all_existing_idempotent allExistClient demoPlan 0 ("owner".data) ("repo".data) rfl
    (fun s _ _ => ⟨"repo-node-id", s, rfl⟩)
    (fun s _ _ => ⟨"project-node-id", s, rfl⟩)
    (fun s _ => ⟨"status-field-id", [("Todo", "todo-option-id")], s, rfl⟩)
    (fun s _ _ _ _ _ => ⟨1, s, rfl⟩)
    (fun s _ _ _ => ⟨"milestone-node-id", s, rfl⟩)
    (fun s _ _ t => ⟨7, "node-" ++ t, s, rfl, by decide⟩)
    (fun s _ cid => ⟨"project-item-" ++ cid, s, rfl⟩)

/-- Claim C4: with a capability whose status-set call always fails, a
run in which every title already exists (skip path) still returns a
successful report, the failures being swallowed; whereas the same
always-failing status-set aborts the run with an error on the creation
path, both right after a newly created child and right after a newly
created epic. -/
theorem applyPlan_status_best_effort_on_skip {σ : Type} (c : GitHubClient σ) (plan : Plan)
    (s : σ) (oc rc : List Char) (hsp : splitOnSlash plan.repository.data = [oc, rc])
    (hRepo : ∀ s o r, ∃ rid s₁, c.getRepositoryID s o r = (.ok rid, s₁))
    (hProj : ∀ s o t, ∃ pid s₁, c.getProjectV2ID s o t = (.ok pid, s₁))
    (hStat : ∀ s pid, ∃ fid opts s₁,
      c.getProjectV2StatusFieldOptions s pid = (.ok (fid, opts), s₁))
    (hMile : ∀ s o r t d du, ∃ n s₁, c.getOrCreateMilestone s o r t d du = (.ok n, s₁))
    (hMileID : ∀ s o r n, ∃ mid s₁, c.getMilestoneID s o r n = (.ok mid, s₁))
    (hFind : ∀ s o r t, ∃ n nid s₁,
      c.findIssueByTitle s o r t = (.ok (n, nid), s₁) ∧ 0 < n)
    (hAdd : ∀ s p cid, ∃ item s₁, c.addIssueToProjectV2 s p cid = (.ok item, s₁))
    (hStatusFail : ∀ s p i f o, ∃ e s₁,
      c.updateProjectV2ItemStatus s p i f o = (.error e, s₁)) :
    (∃ rep s₁ tr, ApplyPlan c plan ⟨false⟩ s = (.ok rep, s₁, tr)) ∧
    (ApplyPlan statusFailClient demoPlan ⟨false⟩ 0).1 =
      .error ("failed to update status for child issue: " ++ "status boom") ∧
    (ApplyPlan statusFailClient demoPlanNoChildren ⟨false⟩ 0).1 =
      .error ("failed to update status for epic issue: " ++ "status boom") := by
  refine ⟨?_, rfl, rfl⟩
  obtain ⟨rep, s₁, tr, h, _⟩ :=
    applyPlan_skip_run c plan s oc rc hsp hRepo hProj hStat hMile hMileID hFind hAdd
  exact ⟨rep, s₁, tr, h⟩

/-- Claim C4 witness: the skip-path half applied to the concrete double
whose status-set always fails and whose titles all pre-exist. -/
theorem applyPlan_status_best_effort_witness :
    ∃ rep s₁ tr, ApplyPlan statusFailAllExistClient demoPlan ⟨false⟩ 0 = (.ok rep, s₁, tr) :=
  (applyPlan_status_best_effort_on_skip statusFailAllExistClient demoPlan 0
    ("owner".data) ("repo".data) rfl
    (fun s _ _ => ⟨"repo-node-id", s, rfl⟩)
    (fun s _ _ => ⟨"project-node-id", s, rfl⟩)
    (fun s _ => ⟨"status-field-id", [("Todo", "todo-option-id")], s, rfl⟩)
    (fun s _ _ _ _ _ => ⟨1, s, rfl⟩)
    (fun s _ _ _ => ⟨"milestone-node-id", s, rfl⟩)
    (fun s _ _ t => ⟨7, "node-" ++ t, s, rfl, by decide⟩)
    (fun s _ cid => ⟨"project-item-" ++ cid, s, rfl⟩)
    (fun s _ _ _ _ => ⟨"status boom", s, rfl⟩)).1

lemma setStatusSwallow_empty {σ : Type} (c : GitHubClient σ) (env : Env) :
    ∀ itemID s, setStatusSwallow c env "" itemID s = (s, []) := by
  intro itemID s
  simp [setStatusSwallow]

lemma setStatusSwallow_unmatched {σ : Type} (c : GitHubClient σ) (env : Env) (st : String)
    (h : lookupAssoc env.statusOptions st = none) :
    ∀ itemID s, setStatusSwallow c env st itemID s = (s, []) := by
  intro itemID s
  by_cases hst : st = ""
  · simp [setStatusSwallow, hst]
  · simp [setStatusSwallow, hst, h]

lemma setStatusPropagate_empty {σ : Type} (c : GitHubClient σ) (env : Env) :
    ∀ itemID msg s, setStatusPropagate c env "" itemID msg s = (.ok (), s, []) := by
  intro itemID msg s
  simp [setStatusPropagate]

lemma setStatusPropagate_unmatched {σ : Type} (c : GitHubClient σ) (env : Env) (st : String)
    (h : lookupAssoc env.statusOptions st = none) :
    ∀ itemID msg s, setStatusPropagate c env st itemID msg s = (.ok (), s, []) := by
  intro itemID msg s
  by_cases hst : st = ""
  · simp [setStatusPropagate, hst]
  · simp [setStatusPropagate, hst, h]

lemma resolveLabels_trace_shape {σ : Type} (c : GitHubClient σ) (o r : String) :
    ∀ (names : List String) (s : σ) (cl : Call),
      cl ∈ (resolveLabels c o r names s).2.2 →
        ∃ nm res, cl = Call.getOrCreateLabel o r nm res := by
  intro names
  induction names with
  | nil => intro s cl hcl; simp [resolveLabels] at hcl
  | cons nm rest ih =>
    intro s cl hcl
    rcases hg : c.getOrCreateLabel s o r nm with ⟨e | lid, s₁⟩
    · simp only [resolveLabels, hg] at hcl
      simp at hcl
      exact ⟨nm, .error e, hcl⟩
    · rcases hrec : resolveLabels c o r rest s₁ with ⟨rr, s₂, tr₂⟩
      have ihx := ih s₁
      rw [hrec] at ihx
      simp only [resolveLabels, hg, hrec] at hcl
      cases rr with
      | error e =>
        rcases List.mem_cons.mp hcl with hcl | hcl
        · exact ⟨nm, .ok lid, hcl⟩
        · exact ihx cl hcl
      | ok lids =>
        rcases List.mem_cons.mp hcl with hcl | hcl
        · exact ⟨nm, .ok lid, hcl⟩
        · exact ihx cl hcl

lemma resolveAssignees_trace_shape {σ : Type} (c : GitHubClient σ) :
    ∀ (logins : List String) (s : σ) (cl : Call),
      cl ∈ (resolveAssignees c logins s).2.2 →
        ∃ login res, cl = Call.getUserID login res := by
  intro logins
  induction logins with
  | nil => intro s cl hcl; simp [resolveAssignees] at hcl
  | cons login rest ih =>
    intro s cl hcl
    rcases hg : c.getUserID s login with ⟨e | uid, s₁⟩
    · simp only [resolveAssignees, hg] at hcl
      simp at hcl
      exact ⟨login, .error e, hcl⟩
    · rcases hrec : resolveAssignees c rest s₁ with ⟨rr, s₂, tr₂⟩
      have ihx := ih s₁
      rw [hrec] at ihx
      simp only [resolveAssignees, hg, hrec] at hcl
      cases rr with
      | error e =>
        rcases List.mem_cons.mp hcl with hcl | hcl
        · exact ⟨login, .ok uid, hcl⟩
        · exact ihx cl hcl
      | ok uids =>
        rcases List.mem_cons.mp hcl with hcl | hcl
        · exact ⟨login, .ok uid, hcl⟩
        · exact ihx cl hcl

lemma setStatusPropagate_trace_shape {σ : Type} (c : GitHubClient σ) (env : Env)
    (st itemID msg : String) (s : σ) (cl : Call) :
    cl ∈ (setStatusPropagate c env st itemID msg s).2.2 →
      ∃ p i f o res, cl = Call.updateProjectV2ItemStatus p i f o res := by
  intro hcl
  rw [setStatusPropagate] at hcl
  by_cases hst : st = ""
  · simp [hst] at hcl
  · rw [if_neg hst] at hcl
    cases hop : lookupAssoc env.statusOptions st with
    | none => rw [hop] at hcl; simp at hcl
    | some optID =>
      rcases hc : c.updateProjectV2ItemStatus s env.projectID itemID env.statusFieldID optID
        with ⟨e | u, s₁⟩
      · simp only [hop, hc] at hcl
        simp at hcl
        exact ⟨_, _, _, _, _, hcl⟩
      · simp only [hop, hc] at hcl
        simp at hcl
        exact ⟨_, _, _, _, _, hcl⟩

lemma setStatusSwallow_trace_shape2 {σ : Type} (c : GitHubClient σ) (env : Env)
    (st itemID : String) (s : σ) (cl : Call) :
    cl ∈ (setStatusSwallow c env st itemID s).2 →
      ∃ p i f o res, cl = Call.updateProjectV2ItemStatus p i f o res := by
  intro hcl
  rcases setStatusSwallow_trace_shape c env st itemID s with h | ⟨optID, r, h⟩
  · rw [h] at hcl; simp at hcl
  · rw [h] at hcl
    simp at hcl
    exact ⟨_, _, _, _, _, hcl⟩

lemma processChildren_no_epicCreate {σ : Type} (c : GitHubClient σ) (env : Env) (st : String) :
    ∀ (children : List Issue) (lines : List String) (rep : Report) (s : σ) (cl : Call),
      cl ∈ (processChildren c env st children lines rep s).2.2 →
        cl.isEpicCreate = false := by
  intro children
  induction children with
  | nil => intro lines rep s cl hcl; simp [processChildren, List.cons_append, List.append_assoc] at hcl
  | cons child rest ih =>
    intro lines rep s cl hcl
    rcases hf : c.findIssueByTitle s env.owner env.repo child.title with ⟨e | ⟨n, nid⟩, s₁⟩
    · simp only [processChildren, hf, List.cons_append, List.append_assoc] at hcl
      simp at hcl
      rw [hcl]; rfl
    · by_cases hpos : 0 < n
      · rcases hadd : c.addIssueToProjectV2 s₁ env.projectID nid with ⟨e | item, s₂⟩
        · simp only [processChildren, hf, if_pos hpos, hadd, List.cons_append, List.append_assoc] at hcl
          rcases List.mem_cons.mp hcl with hcl | hcl
          · rw [hcl]; rfl
          · simp at hcl; rw [hcl]; rfl
        · rcases hsw : setStatusSwallow c env st item s₂ with ⟨s₃, trSt⟩
          simp only [processChildren, hf, if_pos hpos, hadd, hsw, List.cons_append, List.append_assoc] at hcl
          rcases List.mem_cons.mp hcl with hcl | hcl
          · rw [hcl]; rfl
          rcases List.mem_cons.mp hcl with hcl | hcl
          · rw [hcl]; rfl
          rcases List.mem_append.mp hcl with hcl | hcl
          · have := setStatusSwallow_trace_shape2 c env st item s₂ cl (by rw [hsw]; exact hcl)
            obtain ⟨p, i, f, o, res, hc⟩ := this
            rw [hc]; rfl
          · exact ih _ _ _ cl hcl
      · rcases hl : resolveLabels c env.owner env.repo child.labels s₁ with ⟨rl, s₂, trL⟩
        have htrL : ∀ cl ∈ trL, cl.isEpicCreate = false := by
          intro cl hcl
          obtain ⟨nm, res, hc⟩ := resolveLabels_trace_shape c env.owner env.repo child.labels s₁
            cl (by rw [hl]; exact hcl)
          rw [hc]; rfl
        cases rl with
        | error e =>
          simp only [processChildren, hf, if_neg hpos, hl, List.cons_append, List.append_assoc] at hcl
          rcases List.mem_cons.mp hcl with hcl | hcl
          · rw [hcl]; rfl
          · exact htrL cl hcl
        | ok lids =>
          rcases hc : c.createIssue s₂ ⟨env.repoID, child.title, child.body, none, lids, none⟩
            with ⟨e | issue, s₃⟩
          · simp only [processChildren, hf, if_neg hpos, hl, hc, List.cons_append, List.append_assoc] at hcl
            rcases List.mem_cons.mp hcl with hcl | hcl
            · rw [hcl]; rfl
            rcases List.mem_append.mp hcl with hcl | hcl
            · exact htrL cl hcl
            · simp at hcl; rw [hcl]; rfl
          · rcases hadd : c.addIssueToProjectV2 s₃ env.projectID issue.id with ⟨e | item, s₄⟩
            · simp only [processChildren, hf, if_neg hpos, hl, hc, hadd, List.cons_append, List.append_assoc] at hcl
              rcases List.mem_cons.mp hcl with hcl | hcl
              · rw [hcl]; rfl
              rcases List.mem_append.mp hcl with hcl | hcl
              · exact htrL cl hcl
              rcases List.mem_cons.mp hcl with hcl | hcl
              · rw [hcl]; rfl
              · simp at hcl; rw [hcl]; rfl
            · rcases hsp2 : setStatusPropagate c env st item
                  "failed to update status for child issue: " s₄ with ⟨rs, s₅, trSt⟩
              have htrSt : ∀ cl ∈ trSt, cl.isEpicCreate = false := by
                intro cl hcl
                obtain ⟨p, i, f, o, res, hcc⟩ := setStatusPropagate_trace_shape c env st item
                  "failed to update status for child issue: " s₄ cl (by rw [hsp2]; exact hcl)
                rw [hcc]; rfl
              cases rs with
              | error e =>
                simp only [processChildren, hf, if_neg hpos, hl, hc, hadd, hsp2, List.cons_append, List.append_assoc] at hcl
                rcases List.mem_cons.mp hcl with hcl | hcl
                · rw [hcl]; rfl
                rcases List.mem_append.mp hcl with hcl | hcl
                · exact htrL cl hcl
                rcases List.mem_cons.mp hcl with hcl | hcl
                · rw [hcl]; rfl
                rcases List.mem_cons.mp hcl with hcl | hcl
                · rw [hcl]; rfl
                · exact htrSt cl hcl
              | ok u =>
                simp only [processChildren, hf, if_neg hpos, hl, hc, hadd, hsp2, List.cons_append, List.append_assoc] at hcl
                rcases List.mem_cons.mp hcl with hcl | hcl
                · rw [hcl]; rfl
                rcases List.mem_append.mp hcl with hcl | hcl
                · exact htrL cl hcl
                rcases List.mem_cons.mp hcl with hcl | hcl
                · rw [hcl]; rfl
                rcases List.mem_cons.mp hcl with hcl | hcl
                · rw [hcl]; rfl
                rcases List.mem_append.mp hcl with hcl | hcl
                · exact htrSt cl hcl
                · exact ih _ _ _ cl hcl

lemma processChildren_status_unmatched {σ : Type} (c : GitHubClient σ) (env : Env)
    (st : String) (h : lookupAssoc env.statusOptions st = none) :
    ∀ (children : List Issue) (lines : List String) (rep : Report) (s : σ),
      processChildren c env st children lines rep s =
        processChildren c env "" children lines rep s := by
  intro children
  induction children with
  | nil => intro lines rep s; rfl
  | cons child rest ih =>
    intro lines rep s
    rcases hf : c.findIssueByTitle s env.owner env.repo child.title with ⟨e | ⟨n, nid⟩, s₁⟩
    · simp only [processChildren, hf]
    · by_cases hpos : 0 < n
      · rcases hadd : c.addIssueToProjectV2 s₁ env.projectID nid with ⟨e | item, s₂⟩
        · simp only [processChildren, hf, if_pos hpos, hadd]
        · simp only [processChildren, hf, if_pos hpos, hadd,
            setStatusSwallow_unmatched c env st h, setStatusSwallow_empty c env, ih]
      · rcases hl : resolveLabels c env.owner env.repo child.labels s₁ with ⟨rl, s₂, trL⟩
        cases rl with
        | error e => simp only [processChildren, hf, if_neg hpos, hl]
        | ok lids =>
          rcases hc : c.createIssue s₂ ⟨env.repoID, child.title, child.body, none, lids, none⟩
            with ⟨e | issue, s₃⟩
          · simp only [processChildren, hf, if_neg hpos, hl, hc]
          · rcases hadd : c.addIssueToProjectV2 s₃ env.projectID issue.id with ⟨e | item, s₄⟩
            · simp only [processChildren, hf, if_neg hpos, hl, hc, hadd]
            · simp only [processChildren, hf, if_neg hpos, hl, hc, hadd,
                setStatusPropagate_unmatched c env st h, setStatusPropagate_empty c env, ih]

lemma processChildren_unmatched_no_update {σ : Type} (c : GitHubClient σ) (env : Env)
    (st : String) (h : lookupAssoc env.statusOptions st = none) :
    ∀ (children : List Issue) (lines : List String) (rep : Report) (s : σ) (cl : Call),
      cl ∈ (processChildren c env st children lines rep s).2.2 →
        cl.isStatusUpdate = false := by
  intro children
  induction children with
  | nil => intro lines rep s cl hcl; simp [processChildren] at hcl
  | cons child rest ih =>
    intro lines rep s cl hcl
    rcases hf : c.findIssueByTitle s env.owner env.repo child.title with ⟨e | ⟨n, nid⟩, s₁⟩
    · simp only [processChildren, hf, List.cons_append, List.append_assoc] at hcl
      simp at hcl
      rw [hcl]; rfl
    · by_cases hpos : 0 < n
      · rcases hadd : c.addIssueToProjectV2 s₁ env.projectID nid with ⟨e | item, s₂⟩
        · simp only [processChildren, hf, if_pos hpos, hadd, List.cons_append,
            List.append_assoc] at hcl
          rcases List.mem_cons.mp hcl with hcl | hcl
          · rw [hcl]; rfl
          · simp at hcl; rw [hcl]; rfl
        · simp only [processChildren, hf, if_pos hpos, hadd,
            setStatusSwallow_unmatched c env st h, List.cons_append, List.append_assoc,
            List.nil_append] at hcl
          rcases List.mem_cons.mp hcl with hcl | hcl
          · rw [hcl]; rfl
          rcases List.mem_cons.mp hcl with hcl | hcl
          · rw [hcl]; rfl
          · exact ih _ _ _ cl hcl
      · rcases hl : resolveLabels c env.owner env.repo child.labels s₁ with ⟨rl, s₂, trL⟩
        have htrL : ∀ cl ∈ trL, cl.isStatusUpdate = false := by
          intro cl hcl
          obtain ⟨nm, res, hcc⟩ := resolveLabels_trace_shape c env.owner env.repo child.labels
            s₁ cl (by rw [hl]; exact hcl)
          rw [hcc]; rfl
        cases rl with
        | error e =>
          simp only [processChildren, hf, if_neg hpos, hl, List.cons_append,
            List.append_assoc] at hcl
          rcases List.mem_cons.mp hcl with hcl | hcl
          · rw [hcl]; rfl
          · exact htrL cl hcl
        | ok lids =>
          rcases hc : c.createIssue s₂ ⟨env.repoID, child.title, child.body, none, lids, none⟩
            with ⟨e | issue, s₃⟩
          · simp only [processChildren, hf, if_neg hpos, hl, hc, List.cons_append,
              List.append_assoc] at hcl
            rcases List.mem_cons.mp hcl with hcl | hcl
            · rw [hcl]; rfl
            rcases List.mem_append.mp hcl with hcl | hcl
            · exact htrL cl hcl
            · simp at hcl; rw [hcl]; rfl
          · rcases hadd : c.addIssueToProjectV2 s₃ env.projectID issue.id with ⟨e | item, s₄⟩
            · simp only [processChildren, hf, if_neg hpos, hl, hc, hadd, List.cons_append,
                List.append_assoc] at hcl
              rcases List.mem_cons.mp hcl with hcl | hcl
              · rw [hcl]; rfl
              rcases List.mem_append.mp hcl with hcl | hcl
              · exact htrL cl hcl
              rcases List.mem_cons.mp hcl with hcl | hcl
              · rw [hcl]; rfl
              · simp at hcl; rw [hcl]; rfl
            · simp only [processChildren, hf, if_neg hpos, hl, hc, hadd,
                setStatusPropagate_unmatched c env st h, List.cons_append, List.append_assoc,
                List.nil_append] at hcl
              rcases List.mem_cons.mp hcl with hcl | hcl
              · rw [hcl]; rfl
              rcases List.mem_append.mp hcl with hcl | hcl
              · exact htrL cl hcl
              rcases List.mem_cons.mp hcl with hcl | hcl
              · rw [hcl]; rfl
              rcases List.mem_cons.mp hcl with hcl | hcl
              · rw [hcl]; rfl
              · exact ih _ _ _ cl hcl

/-- Claim C6: an epic whose declared status is non-empty but is not a
key of the board's status-option map behaves exactly as if it had no
status at all: processing the epic (one iteration of `ApplyPlan`'s
epic loop) is unchanged when the status is replaced by the empty
string, `UpdateProjectV2ItemStatus` is never invoked for the epic or
its children, and in particular no error arises from the unmatched
value. -/
theorem processEpic_unmatched_status_ignored {σ : Type} (c : GitHubClient σ) (env : Env)
    (mm : List (String × String)) (epic : Epic) (rep : Report) (s : σ)
    (h1 : epic.status ≠ "") (h2 : lookupAssoc env.statusOptions epic.status = none) :
    processEpic c env mm epic rep s =
      processEpic c env mm { epic with status := "" } rep s ∧
    ∀ cl ∈ (processEpic c env mm epic rep s).2.2, cl.isStatusUpdate = false := by
  constructor
  · rcases hch : processChildren c env "" epic.children [] rep s with ⟨rch, s₁, tr₁⟩
    have hrw := processChildren_status_unmatched c env epic.status h2 epic.children [] rep s
    rw [hch] at hrw
    cases rch with
    | error e => simp only [processEpic, hrw, hch]
    | ok pair =>
      obtain ⟨lines, rep₁⟩ := pair
      rcases hf : c.findIssueByTitle s₁ env.owner env.repo epic.title with ⟨e | ⟨n, nid⟩, s₂⟩
      · simp only [processEpic, hrw, hch, hf]
      · by_cases hpos : 0 < n
        · rcases hadd : c.addIssueToProjectV2 s₂ env.projectID nid with ⟨e | item, s₃⟩
          · simp only [processEpic, hrw, hch, hf, if_pos hpos, hadd]
          · simp only [processEpic, hrw, hch, hf, if_pos hpos, hadd,
              setStatusSwallow_unmatched c env epic.status h2, setStatusSwallow_empty c env]
        · rcases hl : resolveLabels c env.owner env.repo epic.labels s₂ with ⟨rl, s₃, trL⟩
          cases rl with
          | error e => simp only [processEpic, hrw, hch, hf, if_neg hpos, hl]
          | ok lids =>
            rcases ha : resolveAssignees c epic.assignees s₃ with ⟨ra, s₄, trA⟩
            cases ra with
            | error e => simp only [processEpic, hrw, hch, hf, if_neg hpos, hl, ha]
            | ok uids =>
              rcases hc : c.createIssue s₄ ⟨env.repoID, epic.title,
                  epic.body ++ "\n\n" ++ String.intercalate "\n" lines,
                  if epic.milestone = "" then none else lookupAssoc mm epic.milestone,
                  lids, some uids⟩ with ⟨e | issue, s₅⟩
              · simp only [processEpic, hrw, hch, hf, if_neg hpos, hl, ha, hc]
              · rcases hadd : c.addIssueToProjectV2 s₅ env.projectID issue.id
                  with ⟨e | item, s₆⟩
                · simp only [processEpic, hrw, hch, hf, if_neg hpos, hl, ha, hc, hadd]
                · simp only [processEpic, hrw, hch, hf, if_neg hpos, hl, ha, hc, hadd,
                    setStatusPropagate_unmatched c env epic.status h2,
                    setStatusPropagate_empty c env]
  · intro cl hcl
    rcases hch : processChildren c env epic.status epic.children [] rep s with ⟨rch, s₁, tr₁⟩
    have htr₁ : ∀ cl ∈ tr₁, cl.isStatusUpdate = false := by
      intro cl hcl
      exact processChildren_unmatched_no_update c env epic.status h2 epic.children [] rep s cl
        (by rw [hch]; exact hcl)
    cases rch with
    | error e =>
      simp only [processEpic, hch] at hcl
      exact htr₁ cl hcl
    | ok pair =>
      obtain ⟨lines, rep₁⟩ := pair
      rcases hf : c.findIssueByTitle s₁ env.owner env.repo epic.title with ⟨e | ⟨n, nid⟩, s₂⟩
      · simp only [processEpic, hch, hf, List.cons_append, List.append_assoc] at hcl
        rcases List.mem_append.mp hcl with hcl | hcl
        · exact htr₁ cl hcl
        · simp at hcl; rw [hcl]; rfl
      · by_cases hpos : 0 < n
        · rcases hadd : c.addIssueToProjectV2 s₂ env.projectID nid with ⟨e | item, s₃⟩
          · simp only [processEpic, hch, hf, if_pos hpos, hadd, List.cons_append,
              List.append_assoc] at hcl
            rcases List.mem_append.mp hcl with hcl | hcl
            · exact htr₁ cl hcl
            rcases List.mem_cons.mp hcl with hcl | hcl
            · rw [hcl]; rfl
            · simp at hcl; rw [hcl]; rfl
          · simp only [processEpic, hch, hf, if_pos hpos, hadd,
              setStatusSwallow_unmatched c env epic.status h2, List.cons_append,
              List.append_assoc, List.append_nil] at hcl
            rcases List.mem_append.mp hcl with hcl | hcl
            · exact htr₁ cl hcl
            rcases List.mem_cons.mp hcl with hcl | hcl
            · rw [hcl]; rfl
            · simp at hcl; rw [hcl]; rfl
        · rcases hl : resolveLabels c env.owner env.repo epic.labels s₂ with ⟨rl, s₃, trL⟩
          have htrL : ∀ cl ∈ trL, cl.isStatusUpdate = false := by
            intro cl hcl
            obtain ⟨nm, res, hcc⟩ := resolveLabels_trace_shape c env.owner env.repo epic.labels
              s₂ cl (by rw [hl]; exact hcl)
            rw [hcc]; rfl
          cases rl with
          | error e =>
            simp only [processEpic, hch, hf, if_neg hpos, hl, List.cons_append,
              List.append_assoc] at hcl
            rcases List.mem_append.mp hcl with hcl | hcl
            · exact htr₁ cl hcl
            rcases List.mem_cons.mp hcl with hcl | hcl
            · rw [hcl]; rfl
            · exact htrL cl hcl
          | ok lids =>
            rcases ha : resolveAssignees c epic.assignees s₃ with ⟨ra, s₄, trA⟩
            have htrA : ∀ cl ∈ trA, cl.isStatusUpdate = false := by
              intro cl hcl
              obtain ⟨lg, res, hcc⟩ := resolveAssignees_trace_shape c epic.assignees s₃ cl
                (by rw [ha]; exact hcl)
              rw [hcc]; rfl
            cases ra with
            | error e =>
              simp only [processEpic, hch, hf, if_neg hpos, hl, ha, List.cons_append,
                List.append_assoc] at hcl
              rcases List.mem_append.mp hcl with hcl | hcl
              · exact htr₁ cl hcl
              rcases List.mem_cons.mp hcl with hcl | hcl
              · rw [hcl]; rfl
              rcases List.mem_append.mp hcl with hcl | hcl
              · exact htrL cl hcl
              · exact htrA cl hcl
            | ok uids =>
              rcases hc : c.createIssue s₄ ⟨env.repoID, epic.title,
                  epic.body ++ "\n\n" ++ String.intercalate "\n" lines,
                  if epic.milestone = "" then none else lookupAssoc mm epic.milestone,
                  lids, some uids⟩ with ⟨e | issue, s₅⟩
              · simp only [processEpic, hch, hf, if_neg hpos, hl, ha, hc, List.cons_append,
                  List.append_assoc] at hcl
                rcases List.mem_append.mp hcl with hcl | hcl
                · exact htr₁ cl hcl
                rcases List.mem_cons.mp hcl with hcl | hcl
                · rw [hcl]; rfl
                rcases List.mem_append.mp hcl with hcl | hcl
                · exact htrL cl hcl
                rcases List.mem_append.mp hcl with hcl | hcl
                · exact htrA cl hcl
                · simp at hcl; rw [hcl]; rfl
              · rcases hadd : c.addIssueToProjectV2 s₅ env.projectID issue.id
                  with ⟨e | item, s₆⟩
                · simp only [processEpic, hch, hf, if_neg hpos, hl, ha, hc, hadd,
                    List.cons_append, List.append_assoc] at hcl
                  rcases List.mem_append.mp hcl with hcl | hcl
                  · exact htr₁ cl hcl
                  rcases List.mem_cons.mp hcl with hcl | hcl
                  · rw [hcl]; rfl
                  rcases List.mem_append.mp hcl with hcl | hcl
                  · exact htrL cl hcl
                  rcases List.mem_append.mp hcl with hcl | hcl
                  · exact htrA cl hcl
                  rcases List.mem_cons.mp hcl with hcl | hcl
                  · rw [hcl]; rfl
                  · simp at hcl; rw [hcl]; rfl
                · simp only [processEpic, hch, hf, if_neg hpos, hl, ha, hc, hadd,
                    setStatusPropagate_unmatched c env epic.status h2, List.cons_append,
                    List.append_assoc, List.append_nil] at hcl
                  rcases List.mem_append.mp hcl with hcl | hcl
                  · exact htr₁ cl hcl
                  rcases List.mem_cons.mp hcl with hcl | hcl
                  · rw [hcl]; rfl
                  rcases List.mem_append.mp hcl with hcl | hcl
                  · exact htrL cl hcl
                  rcases List.mem_append.mp hcl with hcl | hcl
                  · exact htrA cl hcl
                  rcases List.mem_cons.mp hcl with hcl | hcl
                  · rw [hcl]; rfl
                  · simp at hcl; rw [hcl]; rfl

/-- Claim C6 witness: a concrete epic declaring status "Weird" against a
board whose only option is "Todo" behaves as if it declared no status,
with no status-update invocation. -/
theorem processEpic_unmatched_witness :
    processEpic okClient demoEnv [] demoEpicUnmatched Report.empty 0 =
      processEpic okClient demoEnv [] { demoEpicUnmatched with status := "" } Report.empty 0 ∧
    ∀ cl ∈ (processEpic okClient demoEnv [] demoEpicUnmatched Report.empty 0).2.2,
      cl.isStatusUpdate = false :=
  processEpic_unmatched_status_ignored okClient demoEnv [] demoEpicUnmatched Report.empty 0
    (by decide) (by decide)

lemma endsWithError_single (cl : Call) (h : cl.isErrorResult = true) :
    endsWithError [cl] := ⟨[], cl, rfl, h⟩

lemma endsWithError_append (tr₁ tr₂ : List Call) (h : endsWithError tr₂) :
    endsWithError (tr₁ ++ tr₂) := by
  obtain ⟨t0, cl, he, hc⟩ := h
  exact ⟨tr₁ ++ t0, cl, by rw [he, List.append_assoc], hc⟩

lemma endsWithError_cons (cl' : Call) (tr : List Call) (h : endsWithError tr) :
    endsWithError (cl' :: tr) :=
  endsWithError_append [cl'] tr h

lemma resolveLabels_error_ends {σ : Type} (c : GitHubClient σ) (o r : String) :
    ∀ (names : List String) (s : σ) (e : String) (s₁ : σ) (tr : List Call),
      resolveLabels c o r names s = (.error e, s₁, tr) → endsWithError tr := by
  intro names
  induction names with
  | nil => intro s e s₁ tr h; simp [resolveLabels] at h
  | cons nm rest ih =>
    intro s e s₁ tr h
    rcases hg : c.getOrCreateLabel s o r nm with ⟨e₀ | lid, s₀⟩
    · simp only [resolveLabels, hg, Prod.mk.injEq] at h
      obtain ⟨-, -, htr⟩ := h
      rw [← htr]
      exact endsWithError_single _ rfl
    · rcases hrec : resolveLabels c o r rest s₀ with ⟨rr, s₂, tr₂⟩
      cases rr with
      | error e₂ =>
        simp only [resolveLabels, hg, hrec, Prod.mk.injEq] at h
        obtain ⟨-, -, htr⟩ := h
        rw [← htr]
        exact endsWithError_cons _ _ (ih s₀ e₂ s₂ tr₂ hrec)
      | ok lids =>
        simp only [resolveLabels, hg, hrec, Prod.mk.injEq] at h
        simp at h

lemma resolveAssignees_error_ends {σ : Type} (c : GitHubClient σ) :
    ∀ (logins : List String) (s : σ) (e : String) (s₁ : σ) (tr : List Call),
      resolveAssignees c logins s = (.error e, s₁, tr) → endsWithError tr := by
  intro logins
  induction logins with
  | nil => intro s e s₁ tr h; simp [resolveAssignees] at h
  | cons lg rest ih =>
    intro s e s₁ tr h
    rcases hg : c.getUserID s lg with ⟨e₀ | uid, s₀⟩
    · simp only [resolveAssignees, hg, Prod.mk.injEq] at h
      obtain ⟨-, -, htr⟩ := h
      rw [← htr]
      exact endsWithError_single _ rfl
    · rcases hrec : resolveAssignees c rest s₀ with ⟨rr, s₂, tr₂⟩
      cases rr with
      | error e₂ =>
        simp only [resolveAssignees, hg, hrec, Prod.mk.injEq] at h
        obtain ⟨-, -, htr⟩ := h
        rw [← htr]
        exact endsWithError_cons _ _ (ih s₀ e₂ s₂ tr₂ hrec)
      | ok uids =>
        simp only [resolveAssignees, hg, hrec, Prod.mk.injEq] at h
        simp at h

lemma setStatusPropagate_error_ends {σ : Type} (c : GitHubClient σ) (env : Env)
    (st itemID msg : String) (s : σ) (e : String) (s₁ : σ) (tr : List Call)
    (h : setStatusPropagate c env st itemID msg s = (.error e, s₁, tr)) :
    endsWithError tr := by
  by_cases hst : st = ""
  · simp [setStatusPropagate, hst] at h
  · cases hop : lookupAssoc env.statusOptions st with
    | none => simp [setStatusPropagate, hst, hop] at h
    | some optID =>
      rcases hc : c.updateProjectV2ItemStatus s env.projectID itemID env.statusFieldID optID
        with ⟨e₀ | u, s₀⟩
      · simp only [setStatusPropagate, if_neg hst, hop, hc, Prod.mk.injEq] at h
        obtain ⟨-, -, htr⟩ := h
        rw [← htr]
        exact endsWithError_single _ rfl
      · simp [setStatusPropagate, if_neg hst, hop, hc] at h

lemma processChildren_error_ends {σ : Type} (c : GitHubClient σ) (env : Env) (st : String) :
    ∀ (children : List Issue) (lines : List String) (rep : Report) (s : σ)
      (e : String) (s₁ : σ) (tr : List Call),
      processChildren c env st children lines rep s = (.error e, s₁, tr) →
        endsWithError tr := by
  intro children
  induction children with
  | nil => intro lines rep s e s₁ tr h; simp [processChildren] at h
  | cons child rest ih =>
    intro lines rep s e s₁ tr h
    rcases hf : c.findIssueByTitle s env.owner env.repo child.title with ⟨e₀ | ⟨n, nid⟩, s₀⟩
    · simp only [processChildren, hf, Prod.mk.injEq] at h
      obtain ⟨-, -, htr⟩ := h
      rw [← htr]
      exact endsWithError_single _ rfl
    · by_cases hpos : 0 < n
      · rcases hadd : c.addIssueToProjectV2 s₀ env.projectID nid with ⟨e₀ | item, s₂⟩
        · simp only [processChildren, hf, if_pos hpos, hadd, Prod.mk.injEq] at h
          obtain ⟨-, -, htr⟩ := h
          rw [← htr]
          exact endsWithError_cons _ _ (endsWithError_single _ rfl)
        · rcases hsw : setStatusSwallow c env st item s₂ with ⟨s₃, trSt⟩
          rcases hrec : processChildren c env st rest (lines ++ [taskLine n])
              { rep with issuesSkipped := rep.issuesSkipped + 1 } s₃ with ⟨rr, s₄, tr₂⟩
          cases rr with
          | error e₂ =>
            simp only [processChildren, hf, if_pos hpos, hadd, hsw, hrec,
              Prod.mk.injEq] at h
            obtain ⟨-, -, htr⟩ := h
            rw [← htr]
            exact endsWithError_append _ _ (ih _ _ _ e₂ s₄ tr₂ hrec)
          | ok rr =>
            simp only [processChildren, hf, if_pos hpos, hadd, hsw, hrec,
              Prod.mk.injEq] at h
            simp at h
      · rcases hl : resolveLabels c env.owner env.repo child.labels s₀ with ⟨rl, s₂, trL⟩
        cases rl with
        | error e₂ =>
          simp only [processChildren, hf, if_neg hpos, hl, Prod.mk.injEq] at h
          obtain ⟨-, -, htr⟩ := h
          rw [← htr]
          exact endsWithError_cons _ _ (resolveLabels_error_ends c _ _ _ _ e₂ s₂ trL hl)
        | ok lids =>
          rcases hc : c.createIssue s₂ ⟨env.repoID, child.title, child.body, none, lids, none⟩
            with ⟨e₀ | issue, s₃⟩
          · simp only [processChildren, hf, if_neg hpos, hl, hc, Prod.mk.injEq] at h
            obtain ⟨-, -, htr⟩ := h
            rw [← htr]
            exact endsWithError_append _ _ (endsWithError_single _ rfl)
          · rcases hadd : c.addIssueToProjectV2 s₃ env.projectID issue.id with ⟨e₀ | item, s₄⟩
            · simp only [processChildren, hf, if_neg hpos, hl, hc, hadd, Prod.mk.injEq] at h
              obtain ⟨-, -, htr⟩ := h
              rw [← htr]
              refine endsWithError_append _ _ ?_
              exact ⟨[Call.createIssue _ (.ok issue)], _, rfl, rfl⟩
            · rcases hsp2 : setStatusPropagate c env st item
                  "failed to update status for child issue: " s₄ with ⟨rs, s₅, trSt⟩
              cases rs with
              | error e₂ =>
                simp only [processChildren, hf, if_neg hpos, hl, hc, hadd, hsp2,
                  Prod.mk.injEq] at h
                obtain ⟨-, -, htr⟩ := h
                rw [← htr]
                refine endsWithError_append _ _ ?_
                refine endsWithError_cons _ _ (endsWithError_cons _ _ ?_)
                exact setStatusPropagate_error_ends c env st item _ s₄ e₂ s₅ trSt hsp2
              | ok u =>
                rcases hrec : processChildren c env st rest (lines ++ [taskLine issue.number])
                    { rep with issuesCreated := rep.issuesCreated + 1 } s₅ with ⟨rr, s₆, tr₂⟩
                cases rr with
                | error e₂ =>
                  simp only [processChildren, hf, if_neg hpos, hl, hc, hadd, hsp2, hrec,
                    Prod.mk.injEq] at h
                  obtain ⟨-, -, htr⟩ := h
                  rw [← htr]
                  exact endsWithError_append _ _ (ih _ _ _ e₂ s₆ tr₂ hrec)
                | ok rr =>
                  simp only [processChildren, hf, if_neg hpos, hl, hc, hadd, hsp2, hrec,
                    Prod.mk.injEq] at h
                  simp at h

lemma processEpic_error_ends {σ : Type} (c : GitHubClient σ) (env : Env)
    (mm : List (String × String)) (epic : Epic) (rep : Report) (s : σ)
    (e : String) (s₁ : σ) (tr : List Call)
    (h : processEpic c env mm epic rep s = (.error e, s₁, tr)) :
    endsWithError tr := by
  rcases hch : processChildren c env epic.status epic.children [] rep s with ⟨rch, sC, tr₁⟩
  cases rch with
  | error e₂ =>
    simp only [processEpic, hch, Prod.mk.injEq] at h
    obtain ⟨-, -, htr⟩ := h
    rw [← htr]
    exact processChildren_error_ends c env epic.status epic.children [] rep s e₂ sC tr₁ hch
  | ok pair =>
    obtain ⟨lines, rep₁⟩ := pair
    rcases hf : c.findIssueByTitle sC env.owner env.repo epic.title with ⟨e₀ | ⟨n, nid⟩, s₂⟩
    · simp only [processEpic, hch, hf, Prod.mk.injEq] at h
      obtain ⟨-, -, htr⟩ := h
      rw [← htr]
      exact endsWithError_append _ _ (endsWithError_single _ rfl)
    · by_cases hpos : 0 < n
      · rcases hadd : c.addIssueToProjectV2 s₂ env.projectID nid with ⟨e₀ | item, s₃⟩
        · simp only [processEpic, hch, hf, if_pos hpos, hadd, Prod.mk.injEq] at h
          obtain ⟨-, -, htr⟩ := h
          rw [← htr]
          refine endsWithError_append _ _ ?_
          exact ⟨[Call.findIssueByTitle env.owner env.repo epic.title (.ok (n, nid))], _,
            rfl, rfl⟩
        · rcases hsw : setStatusSwallow c env epic.status item s₃ with ⟨s₄, trSt⟩
          simp only [processEpic, hch, hf, if_pos hpos, hadd, hsw, Prod.mk.injEq] at h
          simp at h
      · rcases hl : resolveLabels c env.owner env.repo epic.labels s₂ with ⟨rl, s₃, trL⟩
        cases rl with
        | error e₂ =>
          simp only [processEpic, hch, hf, if_neg hpos, hl, Prod.mk.injEq] at h
          obtain ⟨-, -, htr⟩ := h
          rw [← htr]
          exact endsWithError_append _ _ (endsWithError_cons _ _
            (resolveLabels_error_ends c _ _ _ _ e₂ s₃ trL hl))
        | ok lids =>
          rcases ha : resolveAssignees c epic.assignees s₃ with ⟨ra, s₄, trA⟩
          cases ra with
          | error e₂ =>
            simp only [processEpic, hch, hf, if_neg hpos, hl, ha, Prod.mk.injEq] at h
            obtain ⟨-, -, htr⟩ := h
            rw [← htr]
            exact endsWithError_append _ _ (resolveAssignees_error_ends c _ _ e₂ s₄ trA ha)
          | ok uids =>
            rcases hc : c.createIssue s₄ ⟨env.repoID, epic.title,
                epic.body ++ "\n\n" ++ String.intercalate "\n" lines,
                if epic.milestone = "" then none else lookupAssoc mm epic.milestone,
                lids, some uids⟩ with ⟨e₀ | issue, s₅⟩
            · simp only [processEpic, hch, hf, if_neg hpos, hl, ha, hc, Prod.mk.injEq] at h
              obtain ⟨-, -, htr⟩ := h
              rw [← htr]
              exact endsWithError_append _ _ (endsWithError_single _ rfl)
            · rcases hadd : c.addIssueToProjectV2 s₅ env.projectID issue.id
                with ⟨e₀ | item, s₆⟩
              · simp only [processEpic, hch, hf, if_neg hpos, hl, ha, hc, hadd,
                  Prod.mk.injEq] at h
                obtain ⟨-, -, htr⟩ := h
                rw [← htr]
                refine endsWithError_append _ _ ?_
                exact ⟨[Call.createIssue _ (.ok issue)], _, rfl, rfl⟩
              · rcases hsp2 : setStatusPropagate c env epic.status item
                    "failed to update status for epic issue: " s₆ with ⟨rs, s₇, trSt⟩
                cases rs with
                | error e₂ =>
                  simp only [processEpic, hch, hf, if_neg hpos, hl, ha, hc, hadd, hsp2,
                    Prod.mk.injEq] at h
                  obtain ⟨-, -, htr⟩ := h
                  rw [← htr]
                  refine endsWithError_append _ _ (endsWithError_cons _ _
                    (endsWithError_cons _ _ ?_))
                  exact setStatusPropagate_error_ends c env epic.status item _ s₆ e₂ s₇
                    trSt hsp2
                | ok u =>
                  simp only [processEpic, hch, hf, if_neg hpos, hl, ha, hc, hadd, hsp2,
                    Prod.mk.injEq] at h
                  simp at h

lemma processEpics_error_ends {σ : Type} (c : GitHubClient σ) (env : Env)
    (mm : List (String × String)) (b : Bool) :
    ∀ (epics : List Epic) (rep : Report) (s : σ) (e : String) (s₁ : σ) (tr : List Call),
      processEpics c env mm b epics rep s = (.error e, s₁, tr) → endsWithError tr := by
  intro epics
  induction epics with
  | nil => intro rep s e s₁ tr h; simp [processEpics] at h
  | cons epic rest ih =>
    intro rep s e s₁ tr h
    by_cases hb : b = true
    · simp only [processEpics, if_pos hb] at h
      exact ih rep s e s₁ tr h
    · rcases hpe : processEpic c env mm epic rep s with ⟨re, s₂, trE⟩
      cases re with
      | error e₂ =>
        simp only [processEpics, if_neg hb, hpe, Prod.mk.injEq] at h
        obtain ⟨-, -, htr⟩ := h
        rw [← htr]
        exact processEpic_error_ends c env mm epic rep s e₂ s₂ trE hpe
      | ok rep₁ =>
        rcases hrec : processEpics c env mm b rest rep₁ s₂ with ⟨rr, s₃, trR⟩
        cases rr with
        | error e₂ =>
          simp only [processEpics, if_neg hb, hpe, hrec, Prod.mk.injEq] at h
          obtain ⟨-, -, htr⟩ := h
          rw [← htr]
          exact endsWithError_append _ _ (ih rep₁ s₂ e₂ s₃ trR hrec)
        | ok rr =>
          simp only [processEpics, if_neg hb, hpe, hrec, Prod.mk.injEq] at h
          simp at h

lemma syncMilestones_error_ends {σ : Type} (c : GitHubClient σ) (b : Bool)
    (owner repo : String) :
    ∀ (ms : List Milestone) (acc : List (String × String)) (rep : Report) (s : σ)
      (e : String) (s₁ : σ) (tr : List Call),
      syncMilestones c b owner repo ms acc rep s = (.error e, s₁, tr) → endsWithError tr := by
  intro ms
  induction ms with
  | nil => intro acc rep s e s₁ tr h; simp [syncMilestones] at h
  | cons m rest ih =>
    intro acc rep s e s₁ tr h
    by_cases hb : b = true
    · simp only [syncMilestones, if_pos hb] at h
      exact ih acc rep s e s₁ tr h
    · rcases hm : c.getOrCreateMilestone s owner repo m.title m.description m.dueOn
        with ⟨e₀ | n, s₀⟩
      · simp only [syncMilestones, if_neg hb, hm, Prod.mk.injEq] at h
        obtain ⟨-, -, htr⟩ := h
        rw [← htr]
        exact endsWithError_single _ rfl
      · rcases hid : c.getMilestoneID s₀ owner repo n with ⟨e₀ | mid, s₂⟩
        · simp only [syncMilestones, if_neg hb, hm, hid, Prod.mk.injEq] at h
          obtain ⟨-, -, htr⟩ := h
          rw [← htr]
          exact ⟨[Call.getOrCreateMilestone owner repo m.title m.description m.dueOn (.ok n)],
            _, rfl, rfl⟩
        · rcases hrec : syncMilestones c b owner repo rest ((m.title, mid) :: acc)
              { rep with milestonesCreated := rep.milestonesCreated + 1 } s₂
            with ⟨rr, s₃, trR⟩
          cases rr with
          | error e₂ =>
            simp only [syncMilestones, if_neg hb, hm, hid, hrec, Prod.mk.injEq] at h
            obtain ⟨-, -, htr⟩ := h
            rw [← htr]
            exact endsWithError_cons _ _ (endsWithError_cons _ _
              (ih ((m.title, mid) :: acc) _ s₂ e₂ s₃ trR hrec))
          | ok rr =>
            simp only [syncMilestones, if_neg hb, hm, hid, hrec, Prod.mk.injEq] at h
            simp at h

lemma phase0_error_ends {σ : Type} (c : GitHubClient σ) (o rp p : String) (s : σ)
    (e : String) (s₁ : σ) (tr : List Call)
    (h : phase0 c o rp p s = (.error e, s₁, tr)) : endsWithError tr := by
  rcases h1 : c.getRepositoryID s o rp with ⟨e₀ | rid, s₀⟩
  · simp only [phase0, h1, Prod.mk.injEq] at h
    obtain ⟨-, -, htr⟩ := h
    rw [← htr]
    exact endsWithError_single _ rfl
  · rcases h2 : c.getProjectV2ID s₀ o p with ⟨e₀ | pid, s₂⟩
    · simp only [phase0, h1, h2, Prod.mk.injEq] at h
      obtain ⟨-, -, htr⟩ := h
      rw [← htr]
      exact ⟨[Call.getRepositoryID o rp (.ok rid)], _, rfl, rfl⟩
    · rcases h3 : c.getProjectV2StatusFieldOptions s₂ pid with ⟨e₀ | ⟨fid, opts⟩, s₃⟩
      · simp only [phase0, h1, h2, h3, Prod.mk.injEq] at h
        obtain ⟨-, -, htr⟩ := h
        rw [← htr]
        exact ⟨[Call.getRepositoryID o rp (.ok rid), Call.getProjectV2ID o p (.ok pid)],
          _, rfl, rfl⟩
      · simp only [phase0, h1, h2, h3, Prod.mk.injEq] at h
        simp at h

/-- Claim C5: `ApplyPlan` returns either a report (ok) or an error,
never an incomplete report alongside an error; when an error is returned
the run aborted at the first failing invocation — the trace is either
empty (input validation failed before any call) or ends with the
invocation whose result was the error — even though earlier mutations
recorded in the trace have already happened, as the concrete run whose
milestone creation succeeded before the child creation failed shows. -/
theorem applyPlan_abort_without_report {σ : Type} (c : GitHubClient σ) (plan : Plan)
    (opts : Options) (s : σ) :
    ((∃ rep, (ApplyPlan c plan opts s).1 = .ok rep) ∨
      (∃ e, (ApplyPlan c plan opts s).1 = .error e)) ∧
    (∀ e s₁ tr, ApplyPlan c plan opts s = (.error e, s₁, tr) →
      tr = [] ∨ endsWithError tr) ∧
    ((ApplyPlan createFailClient demoPlan ⟨false⟩ 0).1 =
        .error ("failed to create child issue: " ++ "create boom") ∧
      Call.getOrCreateMilestone "owner" "repo" "Phase 1" "First phase" "2026-04-01" (.ok 1) ∈
        (ApplyPlan createFailClient demoPlan ⟨false⟩ 0).2.2) := by
  refine ⟨?_, ?_, by decide, by decide⟩
  · rcases hr : (ApplyPlan c plan opts s).1 with e | rep
    · exact .inr ⟨e, rfl⟩
    · exact .inl ⟨rep, rfl⟩
  · intro e s₁ tr h
    rcases hsp : splitOnSlash plan.repository.data with _ | ⟨a, _ | ⟨b, _ | ⟨d, l⟩⟩⟩
    · simp only [ApplyPlan, hsp, Prod.mk.injEq] at h
      exact .inl h.2.2.symm
    · simp only [ApplyPlan, hsp, Prod.mk.injEq] at h
      exact .inl h.2.2.symm
    · rcases hp : phase0 c (String.mk a) (String.mk b) plan.project s with ⟨r₀, s₂, tr₀⟩
      cases r₀ with
      | error e₀ =>
        simp only [ApplyPlan, hsp, hp, Prod.mk.injEq] at h
        obtain ⟨-, -, htr⟩ := h
        rw [← htr]
        exact .inr (phase0_error_ends c (String.mk a) (String.mk b) plan.project s e₀ s₂
          tr₀ hp)
      | ok quad =>
        obtain ⟨rid, pid, fid, opts'⟩ := quad
        rcases hm : syncMilestones c opts.dryRun (String.mk a) (String.mk b) plan.milestones
            [] Report.empty s₂ with ⟨rm, s₃, trM⟩
        cases rm with
        | error e₀ =>
          simp only [ApplyPlan, hsp, hp, hm, Prod.mk.injEq] at h
          obtain ⟨-, -, htr⟩ := h
          rw [← htr]
          exact .inr (endsWithError_append _ _ (syncMilestones_error_ends c opts.dryRun
            (String.mk a) (String.mk b) plan.milestones [] Report.empty s₂ e₀ s₃ trM hm))
        | ok pair =>
          obtain ⟨mmap, rep⟩ := pair
          rcases he : processEpics c ⟨rid, pid, fid, opts', String.mk a, String.mk b⟩ mmap
              opts.dryRun plan.epics rep s₃ with ⟨re, s₄, trE⟩
          cases re with
          | error e₀ =>
            simp only [ApplyPlan, hsp, hp, hm, he, Prod.mk.injEq] at h
            obtain ⟨-, -, htr⟩ := h
            rw [← htr]
            exact .inr (endsWithError_append _ _ (processEpics_error_ends c _ mmap
              opts.dryRun plan.epics rep s₃ e₀ s₄ trE he))
          | ok rep₁ =>
            simp only [ApplyPlan, hsp, hp, hm, he, Prod.mk.injEq] at h
            simp at h
    · simp only [ApplyPlan, hsp, Prod.mk.injEq] at h
      exact .inl h.2.2.symm

/-- Claim C5 witness: the aborted concrete run (child creation fails
after the milestone was already created) has a trace ending at the
failing invocation and no report. -/
theorem applyPlan_abort_witness :
    (ApplyPlan createFailClient demoPlan ⟨false⟩ 0).2.2 = [] ∨
      endsWithError (ApplyPlan createFailClient demoPlan ⟨false⟩ 0).2.2 :=
  (applyPlan_abort_without_report createFailClient demoPlan ⟨false⟩ 0).2.1
    ("failed to create child issue: " ++ "create boom")
    (ApplyPlan createFailClient demoPlan ⟨false⟩ 0).2.1
    (ApplyPlan createFailClient demoPlan ⟨false⟩ 0).2.2
    (by decide)

lemma ChildWitness_nil (env : Env) (tr : List Call) : ChildWitness env [] [] tr := by
  intro i hc hn
  simp at hc

lemma processChildren_ok_spec {σ : Type} (c : GitHubClient σ) (env : Env) (st : String) :
    ∀ (children : List Issue) (lines : List String) (rep : Report) (s : σ)
      (lines₁ : List String) (rep₁ : Report) (s₁ : σ) (tr : List Call),
      processChildren c env st children lines rep s = (.ok (lines₁, rep₁), s₁, tr) →
      ∃ nums : List Int, nums.length = children.length ∧
        lines₁ = lines ++ nums.map taskLine ∧
        ChildWitness env children nums tr := by
  intro children
  induction children with
  | nil =>
    intro lines rep s lines₁ rep₁ s₁ tr h
    simp only [processChildren, Prod.mk.injEq, Except.ok.injEq] at h
    obtain ⟨⟨hl, -⟩, -, htr⟩ := h
    exact ⟨[], rfl, by simp [← hl], by rw [← htr]; exact ChildWitness_nil env []⟩
  | cons child rest ih =>
    intro lines rep s lines₁ rep₁ s₁ tr h
    rcases hf : c.findIssueByTitle s env.owner env.repo child.title with ⟨e₀ | ⟨n, nid⟩, s₀⟩
    · simp only [processChildren, hf, Prod.mk.injEq] at h
      simp at h
    · by_cases hpos : 0 < n
      · rcases hadd : c.addIssueToProjectV2 s₀ env.projectID nid with ⟨e₀ | item, s₂⟩
        · simp only [processChildren, hf, if_pos hpos, hadd, Prod.mk.injEq] at h
          simp at h
        · rcases hsw : setStatusSwallow c env st item s₂ with ⟨s₃, trSt⟩
          rcases hrec : processChildren c env st rest (lines ++ [taskLine n])
              { rep with issuesSkipped := rep.issuesSkipped + 1 } s₃ with ⟨rr, s₄, tr₂⟩
          cases rr with
          | error e₂ =>
            simp only [processChildren, hf, if_pos hpos, hadd, hsw, hrec,
              Prod.mk.injEq] at h
            simp at h
          | ok pair =>
            obtain ⟨lines₂, rep₂⟩ := pair
            simp only [processChildren, hf, if_pos hpos, hadd, hsw, hrec, Prod.mk.injEq,
              Except.ok.injEq] at h
            obtain ⟨⟨hl2, -⟩, -, htr⟩ := h
            obtain ⟨nums, hlen, hlines, hw⟩ := ih _ _ _ _ _ _ _ hrec
            refine ⟨n :: nums, by simp [hlen], ?_, ?_⟩
            · rw [← hl2, hlines]
              simp
            · rw [← htr]
              intro i hc hn
              cases i with
              | zero =>
                refine ⟨⟨.ok (n, nid), by simp⟩, .inl ⟨hpos, nid, by simp⟩⟩
              | succ j =>
                have hc' : j < rest.length := by simpa using hc
                have hn' : j < nums.length := by simpa using hn
                obtain ⟨⟨fr, hfr⟩, hrest⟩ := hw j hc' hn'
                refine ⟨⟨fr, ?_⟩, ?_⟩
                · simp only [List.get_cons_succ]
                  simp only [List.cons_append, List.append_assoc, List.mem_append, List.mem_cons]
                  have hx := hfr
                  tauto
                · rcases hrest with ⟨hp, nid', hmem⟩ | ⟨input, ci, hmem, ht, hass, hnum⟩
                  · exact .inl ⟨by simpa using hp, nid', by
                      simp only [List.get_cons_succ]
                      simp only [List.cons_append, List.append_assoc, List.mem_append, List.mem_cons]
                      have hx := hmem
                      tauto⟩
                  · exact .inr ⟨input, ci, by
                      simp only [List.cons_append, List.append_assoc, List.mem_append, List.mem_cons]
                      have hx := hmem
                      tauto, by simpa using ht, hass, by simpa using hnum⟩
      · rcases hl : resolveLabels c env.owner env.repo child.labels s₀ with ⟨rl, s₂, trL⟩
        cases rl with
        | error e₂ =>
          simp only [processChildren, hf, if_neg hpos, hl, Prod.mk.injEq] at h
          simp at h
        | ok lids =>
          rcases hc : c.createIssue s₂ ⟨env.repoID, child.title, child.body, none, lids, none⟩
            with ⟨e₀ | issue, s₃⟩
          · simp only [processChildren, hf, if_neg hpos, hl, hc, Prod.mk.injEq] at h
            simp at h
          · rcases hadd : c.addIssueToProjectV2 s₃ env.projectID issue.id with ⟨e₀ | item, s₄⟩
            · simp only [processChildren, hf, if_neg hpos, hl, hc, hadd, Prod.mk.injEq] at h
              simp at h
            · rcases hsp2 : setStatusPropagate c env st item
                  "failed to update status for child issue: " s₄ with ⟨rs, s₅, trSt⟩
              cases rs with
              | error e₂ =>
                simp only [processChildren, hf, if_neg hpos, hl, hc, hadd, hsp2,
                  Prod.mk.injEq] at h
                simp at h
              | ok u =>
                rcases hrec : processChildren c env st rest (lines ++ [taskLine issue.number])
                    { rep with issuesCreated := rep.issuesCreated + 1 } s₅ with ⟨rr, s₆, tr₂⟩
                cases rr with
                | error e₂ =>
                  simp only [processChildren, hf, if_neg hpos, hl, hc, hadd, hsp2, hrec,
                    Prod.mk.injEq] at h
                  simp at h
                | ok pair =>
                  obtain ⟨lines₂, rep₂⟩ := pair
                  simp only [processChildren, hf, if_neg hpos, hl, hc, hadd, hsp2, hrec,
                    Prod.mk.injEq, Except.ok.injEq] at h
                  obtain ⟨⟨hl2, -⟩, -, htr⟩ := h
                  obtain ⟨nums, hlen, hlines, hw⟩ := ih _ _ _ _ _ _ _ hrec
                  refine ⟨issue.number :: nums, by simp [hlen], ?_, ?_⟩
                  · rw [← hl2, hlines]
                    simp
                  · rw [← htr]
                    intro i hc' hn
                    cases i with
                    | zero =>
                      refine ⟨⟨.ok (n, nid), by simp⟩, .inr ⟨⟨env.repoID, child.title,
                        child.body, none, lids, none⟩, issue, by simp, rfl, rfl, rfl⟩⟩
                    | succ j =>
                      have hcj : j < rest.length := by simpa using hc'
                      have hnj : j < nums.length := by simpa using hn
                      obtain ⟨⟨fr, hfr⟩, hrest⟩ := hw j hcj hnj
                      refine ⟨⟨fr, ?_⟩, ?_⟩
                      · simp only [List.get_cons_succ]
                        simp only [List.cons_append, List.append_assoc, List.mem_append, List.mem_cons]
                        have hx := hfr
                        tauto
                      · rcases hrest with ⟨hp, nid', hmem⟩ | ⟨input, ci, hmem, ht, hass, hnum⟩
                        · exact .inl ⟨by simpa using hp, nid', by
                            simp only [List.get_cons_succ]
                            simp only [List.cons_append, List.append_assoc, List.mem_append, List.mem_cons]
                            have hx := hmem
                            tauto⟩
                        · exact .inr ⟨input, ci, by
                            simp only [List.cons_append, List.append_assoc, List.mem_append, List.mem_cons]
                            have hx := hmem
                            tauto, by simpa using ht, hass, by simpa using hnum⟩

/-- Claim C2: whatever result one iteration of the epic loop produces,
if it invoked the epic's own `CreateIssue` (the invocation carrying an
assignee list — children never do), then that call's title is the
epic's, its body is the epic's declared body, a blank line, and exactly
one tasklist line per child in child-declaration order, each number
being the one returned by that child's lookup (when found) or creation
(when not); and the call sits strictly after the per-child trace, so
every child lookup/creation completed before it. -/
theorem processEpic_epic_body_tasklist {σ : Type} (c : GitHubClient σ) (env : Env)
    (mm : List (String × String)) (epic : Epic) (rep : Report) (s : σ)
    (res : Except String Report) (s₁ : σ) (tr : List Call)
    (h : processEpic c env mm epic rep s = (res, s₁, tr)) :
    ∀ input r, Call.createIssue input r ∈ tr → input.assigneeIDs.isSome = true →
      input.title = epic.title ∧
      ∃ (nums : List Int) (trC trE : List Call), nums.length = epic.children.length ∧
        input.body = epic.body ++ "\n\n" ++ String.intercalate "\n" (nums.map taskLine) ∧
        tr = trC ++ trE ∧ ChildWitness env epic.children nums trC ∧
        Call.createIssue input r ∈ trE := by
  intro input r hmem hass
  rcases hch : processChildren c env epic.status epic.children [] rep s with ⟨rch, sC, tr₁⟩
  have hepicmem : Call.createIssue input r ∉ tr₁ := by
    intro hx
    have hcx := processChildren_no_epicCreate c env epic.status epic.children [] rep s _
      (by rw [hch]; exact hx)
    simp [Call.isEpicCreate, hass] at hcx
  cases rch with
  | error e₂ =>
    simp only [processEpic, hch, Prod.mk.injEq] at h
    obtain ⟨-, -, htr⟩ := h
    rw [← htr] at hmem
    exact absurd hmem hepicmem
  | ok pair =>
    obtain ⟨lines, rep₁⟩ := pair
    obtain ⟨nums, hlen, hlines, hw⟩ := processChildren_ok_spec c env epic.status
      epic.children [] rep s lines rep₁ sC tr₁ hch
    have hlines' : lines = nums.map taskLine := by simpa using hlines
    rcases hf : c.findIssueByTitle sC env.owner env.repo epic.title with ⟨e₀ | ⟨n, nid⟩, s₂⟩
    · simp only [processEpic, hch, hf, Prod.mk.injEq] at h
      obtain ⟨-, -, htr⟩ := h
      rw [← htr] at hmem
      rcases List.mem_append.mp hmem with hx | hx
      · exact absurd hx hepicmem
      · simp at hx
    · by_cases hpos : 0 < n
      · rcases hadd : c.addIssueToProjectV2 s₂ env.projectID nid with ⟨e₀ | item, s₃⟩
        · simp only [processEpic, hch, hf, if_pos hpos, hadd, Prod.mk.injEq] at h
          obtain ⟨-, -, htr⟩ := h
          rw [← htr] at hmem
          rcases List.mem_append.mp hmem with hx | hx
          · exact absurd hx hepicmem
          · simp at hx
        · rcases hsw : setStatusSwallow c env epic.status item s₃ with ⟨s₄, trSt⟩
          simp only [processEpic, hch, hf, if_pos hpos, hadd, hsw, Prod.mk.injEq] at h
          obtain ⟨-, -, htr⟩ := h
          rw [← htr] at hmem
          rcases List.mem_append.mp hmem with hx | hx
          · exact absurd hx hepicmem
          rcases List.mem_cons.mp hx with hx | hx
          · simp at hx
          rcases List.mem_cons.mp hx with hx | hx
          · simp at hx
          · obtain ⟨p, i, f, o, res0, heq⟩ := setStatusSwallow_trace_shape2 c env
              epic.status item s₃ _ (by rw [hsw]; exact hx)
            simp at heq
      · rcases hl : resolveLabels c env.owner env.repo epic.labels s₂ with ⟨rl, s₃, trL⟩
        have hnotL : Call.createIssue input r ∉ trL := by
          intro hx
          obtain ⟨nm, res0, heq⟩ := resolveLabels_trace_shape c env.owner env.repo
            epic.labels s₂ _ (by rw [hl]; exact hx)
          simp at heq
        cases rl with
        | error e₂ =>
          simp only [processEpic, hch, hf, if_neg hpos, hl, Prod.mk.injEq] at h
          obtain ⟨-, -, htr⟩ := h
          rw [← htr] at hmem
          rcases List.mem_append.mp hmem with hx | hx
          · exact absurd hx hepicmem
          rcases List.mem_cons.mp hx with hx | hx
          · simp at hx
          · exact absurd hx hnotL
        | ok lids =>
          rcases ha : resolveAssignees c epic.assignees s₃ with ⟨ra, s₄, trA⟩
          have hnotA : Call.createIssue input r ∉ trA := by
            intro hx
            obtain ⟨lg, res0, heq⟩ := resolveAssignees_trace_shape c epic.assignees s₃ _
              (by rw [ha]; exact hx)
            simp at heq
          cases ra with
          | error e₂ =>
            simp only [processEpic, hch, hf, if_neg hpos, hl, ha, Prod.mk.injEq] at h
            obtain ⟨-, -, htr⟩ := h
            rw [← htr] at hmem
            rcases List.mem_append.mp hmem with hx | hx
            · rcases List.mem_append.mp hx with hx | hx
              · exact absurd hx hepicmem
              rcases List.mem_cons.mp hx with hx | hx
              · simp at hx
              · exact absurd hx hnotL
            · exact absurd hx hnotA
          | ok uids =>
            rcases hc : c.createIssue s₄ ⟨env.repoID, epic.title,
                epic.body ++ "\n\n" ++ String.intercalate "\n" lines,
                if epic.milestone = "" then none else lookupAssoc mm epic.milestone,
                lids, some uids⟩ with ⟨e₀ | issue, s₅⟩
            · simp only [processEpic, hch, hf, if_neg hpos, hl, ha, hc, Prod.mk.injEq] at h
              obtain ⟨-, -, htr⟩ := h
              rw [← htr] at hmem
              rcases List.mem_append.mp hmem with hx | hx
              · rcases List.mem_append.mp hx with hx | hx
                · rcases List.mem_append.mp hx with hx | hx
                  · exact absurd hx hepicmem
                  rcases List.mem_cons.mp hx with hx | hx
                  · simp at hx
                  · exact absurd hx hnotL
                · exact absurd hx hnotA
              · simp only [List.mem_singleton] at hx
                rw [Call.createIssue.injEq] at hx
                obtain ⟨hin, hr⟩ := hx
                refine ⟨by rw [hin], nums, tr₁,
                  (Call.findIssueByTitle env.owner env.repo epic.title (.ok (n, nid)) :: trL)
                    ++ trA ++ [Call.createIssue input r], hlen, ?_, ?_, hw, ?_⟩
                · rw [hin]
                  simp [hlines']
                · rw [← htr, hin, hr]; simp
                · simp
            · rcases hadd : c.addIssueToProjectV2 s₅ env.projectID issue.id
                with ⟨e₀ | item, s₆⟩
              · simp only [processEpic, hch, hf, if_neg hpos, hl, ha, hc, hadd,
                  Prod.mk.injEq] at h
                obtain ⟨-, -, htr⟩ := h
                rw [← htr] at hmem
                rcases List.mem_append.mp hmem with hx | hx
                · rcases List.mem_append.mp hx with hx | hx
                  · rcases List.mem_append.mp hx with hx | hx
                    · exact absurd hx hepicmem
                    rcases List.mem_cons.mp hx with hx | hx
                    · simp at hx
                    · exact absurd hx hnotL
                  · exact absurd hx hnotA
                · rcases List.mem_cons.mp hx with hx | hx
                  · rw [Call.createIssue.injEq] at hx
                    obtain ⟨hin, hr⟩ := hx
                    refine ⟨by rw [hin], nums, tr₁,
                      (Call.findIssueByTitle env.owner env.repo epic.title (.ok (n, nid))
                        :: trL) ++ trA ++ [Call.createIssue input r,
                        Call.addIssueToProjectV2 env.projectID issue.id (.error e₀)],
                      hlen, ?_, ?_, hw, ?_⟩
                    · rw [hin]
                      simp [hlines']
                    · rw [← htr, hin, hr]; simp
                    · simp
                  · simp at hx
              · rcases hsp2 : setStatusPropagate c env epic.status item
                    "failed to update status for epic issue: " s₆ with ⟨rs, s₇, trSt⟩
                have hnotSt : Call.createIssue input r ∉ trSt := by
                  intro hx
                  obtain ⟨p, i, f, o, res0, heq⟩ := setStatusPropagate_trace_shape c env
                    epic.status item "failed to update status for epic issue: " s₆ _
                    (by rw [hsp2]; exact hx)
                  simp at heq
                have hfinish : ∀ (htr :
                    (tr₁ ++ Call.findIssueByTitle env.owner env.repo epic.title
                        (.ok (n, nid)) :: trL ++ trA ++ Call.createIssue
                        ⟨env.repoID, epic.title,
                          epic.body ++ "\n\n" ++ String.intercalate "\n" lines,
                          if epic.milestone = "" then none
                          else lookupAssoc mm epic.milestone, lids, some uids⟩
                        (.ok issue) :: Call.addIssueToProjectV2 env.projectID issue.id
                        (.ok item) :: trSt) = tr),
                    input.title = epic.title ∧
                    ∃ (nums : List Int) (trC trE : List Call),
                      nums.length = epic.children.length ∧
                      input.body = epic.body ++ "\n\n" ++
                        String.intercalate "\n" (nums.map taskLine) ∧
                      tr = trC ++ trE ∧ ChildWitness env epic.children nums trC ∧
                      Call.createIssue input r ∈ trE := by
                  intro htr
                  rw [← htr] at hmem
                  rcases List.mem_append.mp hmem with hx | hx
                  · rcases List.mem_append.mp hx with hx | hx
                    · rcases List.mem_append.mp hx with hx | hx
                      · exact absurd hx hepicmem
                      rcases List.mem_cons.mp hx with hx | hx
                      · simp at hx
                      · exact absurd hx hnotL
                    · exact absurd hx hnotA
                  · rcases List.mem_cons.mp hx with hx | hx
                    · rw [Call.createIssue.injEq] at hx
                      obtain ⟨hin, hr⟩ := hx
                      refine ⟨by rw [hin], nums, tr₁,
                        (Call.findIssueByTitle env.owner env.repo epic.title (.ok (n, nid))
                          :: trL) ++ trA ++ Call.createIssue input r
                          :: Call.addIssueToProjectV2 env.projectID issue.id (.ok item)
                          :: trSt, hlen, ?_, ?_, hw, ?_⟩
                      · rw [hin]
                        simp [hlines']
                      · rw [← htr, hin, hr]; simp
                      · simp
                    rcases List.mem_cons.mp hx with hx | hx
                    · simp at hx
                    · exact absurd hx hnotSt
                cases rs with
                | error e₂ =>
                  simp only [processEpic, hch, hf, if_neg hpos, hl, ha, hc, hadd, hsp2,
                    Prod.mk.injEq] at h
                  obtain ⟨-, -, htr⟩ := h
                  exact hfinish htr
                | ok u =>
                  simp only [processEpic, hch, hf, if_neg hpos, hl, ha, hc, hadd, hsp2,
                    Prod.mk.injEq] at h
                  obtain ⟨-, -, htr⟩ := h
                  exact hfinish htr

/-- Claim C2 witness: in the concrete one-child run, the epic creation
call carries the composed body with the child tasklist line, placed
after the whole per-child trace. -/
theorem processEpic_epic_body_tasklist_witness :
    demoEpicInput.title = demoEpic.title ∧
    ∃ (nums : List Int) (trC trE : List Call), nums.length = demoEpic.children.length ∧
      demoEpicInput.body =
        demoEpic.body ++ "\n\n" ++ String.intercalate "\n" (nums.map taskLine) ∧
      (processEpic okClient demoEnv [("Phase 1", "milestone-node-id")] demoEpic
        Report.empty 0).2.2 = trC ++ trE ∧
      ChildWitness demoEnv demoEpic.children nums trC ∧
      Call.createIssue demoEpicInput
        (.ok ⟨"issue-id-Epic 1", 2, "url-Epic 1"⟩) ∈ trE :=
  processEpic_epic_body_tasklist okClient demoEnv [("Phase 1", "milestone-node-id")]
    demoEpic Report.empty 0 _ _ _ rfl demoEpicInput
    (.ok ⟨"issue-id-Epic 1", 2, "url-Epic 1"⟩) (by decide) rfl
